
import Mathlib

/-!
# Verification of the Arduino unconstrained MPC library

A shallow embedding, in exact arithmetic over an arbitrary field, of the three
control-law implementations of the library:

* `Naive`   — `mpc_engl/mpc.cpp` (the output map `C` folded into every block);
* `Opt`     — `mpc_opt_engl/mpc.cpp`, first part (block-diagonal `Cz` expansion,
  persisted truncated gain `XI_DU`);
* `LsNew`   — the least-squares implementation contained in `mpc_opt_engl/mpc.cpp`
  (second part of that file), using the stored transposed orthogonal factor directly;
* `LsOld`   — `mpc_least_square_engl/mpc.cpp`, which extracts the leading block of
  the stored orthogonal factor and multiplies by its transpose.

The matrix kernel (`matrix.h`) is not part of the given sources; its operations
(`InsertSubMatrix`, `Invers`, `QRDec`, `BackSubtitution`, diagonal fill) are
modelled from the specification, each with a doc comment saying so.

Matrices are Mathlib matrices.  Block-structured stacks use product index types
`Fin Hp × Fin Z` (block row `i`, inner row `z`), matching the row-major layout
`i*Z + z` of the C code; `finProdFinEquiv` mediates to linear indices where the
code extracts sub-blocks by linear row counts.
-/

set_option linter.unusedSectionVars false

namespace MPCLib

open scoped Matrix

variable {F : Type} [LinearOrderedField F] [DecidableEq F]

/-! ## Block assembly (`InsertSubMatrix` at block granularity) -/

/-- Modelled from the spec: `InsertSubMatrix(dst, src, rowOffset, 0)` for a source
occupying the full width of `dst` and one aligned row block at block row `i`
(row offset `i * Z`): entries of the target block come from `src`, all other
entries keep their previous value. -/
def insertRowBlock {hp : ℕ} {β γ : Type} (dst : Matrix (Fin hp × β) γ F) (i : Fin hp)
    (src : Matrix β γ F) : Matrix (Fin hp × β) γ F :=
  fun r c => if r.1 = i then src r.2 c else dst r c

/-- The stacking loops of `vReInit` (`CPSI`, `COMEGA`, `_PSI`, `_OMEGA`): iterate
`i = 0, …, Hp-1`, inserting block `i` at row offset `i * Z` into `start`. -/
def stackFold {hp : ℕ} {β γ : Type} (start : Matrix (Fin hp × β) γ F)
    (blocks : Fin hp → Matrix β γ F) : Matrix (Fin hp × β) γ F :=
  (List.finRange hp).foldl (fun d i => insertRowBlock d i (blocks i)) start

/-- Modelled from the spec: the truncated insertion
`InsertSubMatrix(dst, om, j*Z, j*M, Hp*Z - j*Z, M)` used to build the Toeplitz
matrix: column block `j` receives the first `Hp - j` row blocks of `om`, shifted
down by `j` row blocks; entries above the shift keep their previous value. -/
def insertThetaBlock {hp hu : ℕ} {β γ : Type} (dst : Matrix (Fin hp × β) (Fin hu × γ) F)
    (j : Fin hu) (om : Matrix (Fin hp × β) γ F) : Matrix (Fin hp × β) (Fin hu × γ) F :=
  fun r c =>
    if c.1 = j then
      if (j : ℕ) ≤ (r.1 : ℕ) then
        om (⟨(r.1 : ℕ) - (j : ℕ), lt_of_le_of_lt (Nat.sub_le _ _) r.1.2⟩, r.2) c.2
      else dst r c
    else dst r c

/-- The Toeplitz loop of `vReInit` (`CTHETA` in `mpc_engl`, `_THETA` elsewhere):
iterate `j = 0, …, Hu-1`, inserting the shifted truncated copy of `om`. -/
def thetaFold {hp hu : ℕ} {β γ : Type} (start : Matrix (Fin hp × β) (Fin hu × γ) F)
    (om : Matrix (Fin hp × β) γ F) : Matrix (Fin hp × β) (Fin hu × γ) F :=
  (List.finRange hu).foldl (fun d j => insertThetaBlock d j om) start

/-! ## The running powers and partial sums of `vReInit` -/

/-- The running power `_Apow` of the `CPSI`/`_PSI` loop: it starts at `A` and is
multiplied by `A` after every insertion, so iteration `i` inserts `Apow A i`. -/
def Apow {n : ℕ} (A : Matrix (Fin n) (Fin n) F) : ℕ → Matrix (Fin n) (Fin n) F
  | 0 => A
  | i + 1 => Apow A i * A

/-- The running sum `_tempSigma` of the `COMEGA`/`_OMEGA` loop: it starts at `B`
and accumulates `_Apow * B` (with `_Apow = A^(i+1)` after the update), so
iteration `i` inserts `tSigma A B i`. -/
def tSigma {n m : ℕ} (A : Matrix (Fin n) (Fin n) F) (B : Matrix (Fin n) (Fin m) F) :
    ℕ → Matrix (Fin n) (Fin m) F
  | 0 => B
  | i + 1 => tSigma A B i + Apow A i * B

/-! ## Prediction-matrix builders

Two constructions appear in the sources: `mpc_engl` folds the output map `C`
into every block while accumulating (`CPSI`, `COMEGA`, `CTHETA` built directly),
while `mpc_opt_engl`, `mpc_least_square_engl` and the second naive variant build
the state-space stacks `_PSI`, `_OMEGA`, `_THETA` and left-multiply them by the
block-diagonal expansion `Cz` of `C`. -/

variable {N M Z Hp Hu : ℕ}

namespace Naive

/-- `CPSI` of `mpc_engl::vReInit`: block row `i` receives `C * _Apow` with
`_Apow = A^(i+1)` at iteration `i`. -/
def CPSI (A : Matrix (Fin N) (Fin N) F) (C : Matrix (Fin Z) (Fin N) F) :
    Matrix (Fin Hp × Fin Z) (Fin N) F :=
  stackFold 0 fun i => C * Apow A i

/-- `COMEGA` of `mpc_engl::vReInit`: block row `i` receives `C * _tempSigma`. -/
def COMEGA (A : Matrix (Fin N) (Fin N) F) (B : Matrix (Fin N) (Fin M) F)
    (C : Matrix (Fin Z) (Fin N) F) : Matrix (Fin Hp × Fin Z) (Fin M) F :=
  stackFold 0 fun i => C * tSigma A B i

/-- `CTHETA` of `mpc_engl::vReInit`: shifted truncated copies of `COMEGA`
inserted at row offset `i*Z`, column offset `i*M` (started from the zero-filled
member matrix of a freshly constructed controller). -/
def CTHETA (A : Matrix (Fin N) (Fin N) F) (B : Matrix (Fin N) (Fin M) F)
    (C : Matrix (Fin Z) (Fin N) F) : Matrix (Fin Hp × Fin Z) (Fin Hu × Fin M) F :=
  thetaFold 0 (COMEGA A B C)

end Naive

namespace CzForm

/-- `_PSI` of the `Cz`-based variants: block row `i` receives `A^(i+1)`. -/
def PSI (A : Matrix (Fin N) (Fin N) F) : Matrix (Fin Hp × Fin N) (Fin N) F :=
  stackFold 0 fun i => Apow A i

/-- `_OMEGA` of the `Cz`-based variants: block row `i` receives `_tempSigma`. -/
def OMEGA (A : Matrix (Fin N) (Fin N) F) (B : Matrix (Fin N) (Fin M) F) :
    Matrix (Fin Hp × Fin N) (Fin M) F :=
  stackFold 0 fun i => tSigma A B i

/-- `_THETA` of the `Cz`-based variants: shifted truncated copies of `_OMEGA`
inserted into a zero-filled local matrix. -/
def THETA (A : Matrix (Fin N) (Fin N) F) (B : Matrix (Fin N) (Fin M) F) :
    Matrix (Fin Hp × Fin N) (Fin Hu × Fin M) F :=
  thetaFold 0 (OMEGA A B)

/-- One step of the `Cz` assembly loop: `InsertSubMatrix(Cz, C, i*Z, i*N)`
writes the `Z × N` block at block position `(i, i)`. -/
def insertDiagBlock (dst : Matrix (Fin Hp × Fin Z) (Fin Hp × Fin N) F) (i : Fin Hp)
    (C : Matrix (Fin Z) (Fin N) F) : Matrix (Fin Hp × Fin Z) (Fin Hp × Fin N) F :=
  fun r c => if r.1 = i ∧ c.1 = i then C r.2 c.2 else dst r c

/-- `Cz` of the `Cz`-based `vReInit`: the block-diagonal expansion of `C`,
assembled by inserting `C` at block `(i, i)` of a zero-filled local matrix for
`i = 0, …, Hp-1`. -/
def Cz (C : Matrix (Fin Z) (Fin N) F) : Matrix (Fin Hp × Fin Z) (Fin Hp × Fin N) F :=
  (List.finRange Hp).foldl (fun d i => insertDiagBlock d i C) 0

/-- `CPSI = Cz * _PSI` of the `Cz`-based `vReInit`. -/
def CPSI (A : Matrix (Fin N) (Fin N) F) (C : Matrix (Fin Z) (Fin N) F) :
    Matrix (Fin Hp × Fin Z) (Fin N) F :=
  Cz C * PSI A

/-- `COMEGA = Cz * _OMEGA` of the `Cz`-based `vReInit`. -/
def COMEGA (A : Matrix (Fin N) (Fin N) F) (B : Matrix (Fin N) (Fin M) F)
    (C : Matrix (Fin Z) (Fin N) F) : Matrix (Fin Hp × Fin Z) (Fin M) F :=
  Cz C * OMEGA A B

/-- `CTHETA = Cz * _THETA` of the `Cz`-based `vReInit`. -/
def CTHETA (A : Matrix (Fin N) (Fin N) F) (B : Matrix (Fin N) (Fin M) F)
    (C : Matrix (Fin Z) (Fin N) F) : Matrix (Fin Hp × Fin Z) (Fin Hu × Fin M) F :=
  Cz C * THETA A B

end CzForm

/-! ## Spec-modelled matrix-kernel operations -/

/-- Modelled from the spec: `vSetDiag` / `vIsiDiagonal(v)` — zero the off-diagonal
entries and set every diagonal entry to `v`. -/
def setDiag {ι : Type} [DecidableEq ι] (v : F) : Matrix ι ι F :=
  Matrix.diagonal fun _ => v

/-- Modelled from the spec: `Invers` (Gauss-Jordan elimination with partial
pivoting, singularity detected at a vanishing pivot).  In exact arithmetic the
elimination succeeds exactly when the determinant is nonzero, and then returns
the mathematical inverse (written `det⁻¹ • adjugate`); on a singular input the
result is the zeroed matrix with its validity flag cleared. -/
def Invers {ι : Type} [Fintype ι] [DecidableEq ι] (Mt : Matrix ι ι F) :
    Bool × Matrix ι ι F :=
  if Mt.det ≠ 0 then (true, Mt.det⁻¹ • Mt.adjugate) else (false, 0)

/-! ## Back substitution -/

/-- One row of back substitution: row `i` is set to
`(b i - ∑_{j > i} U i j * x j) / U i i`, all other rows unchanged. -/
def backSubStep {n : ℕ} (U : Matrix (Fin n) (Fin n) F) (b : Matrix (Fin n) (Fin 1) F)
    (x : Fin n → F) (i : Fin n) : Fin n → F :=
  Function.update x i
    ((b i 0 - ∑ j : Fin n, if i < j then U i j * x j else 0) / U i i)

/-- The first `k` iterations of the back-substitution loop, which walks the rows
from the last one upward: after `k` steps the rows `n-k, …, n-1` are solved. -/
def backSolveAux {n : ℕ} (U : Matrix (Fin n) (Fin n) F) (b : Matrix (Fin n) (Fin 1) F) :
    ℕ → (Fin n → F)
  | 0 => fun _ => 0
  | k + 1 =>
    if h : n - (k + 1) < n then
      backSubStep U b (backSolveAux U b k) ⟨n - (k + 1), h⟩
    else backSolveAux U b k

/-- Modelled from the spec: `BackSubtitution(U, b)` solves `U·x = b` for square
upper-triangular `U` row-wise from the last row upward; the validity flag is
cleared when some diagonal entry vanishes (exact-arithmetic form of the
near-zero-pivot guard). The value is computed unconditionally. -/
def BackSubtitution {n : ℕ} (U : Matrix (Fin n) (Fin n) F) (b : Matrix (Fin n) (Fin 1) F) :
    Bool × Matrix (Fin n) (Fin 1) F :=
  (decide (∀ i, U i i ≠ 0), fun i _ => backSolveAux U b n i)

/-- Modelled from the spec: one step of the Householder `QRDec` applies the
reflector `I - (2/vᵀv)·v·vᵀ` for a reflection vector `v` built from the column
being zeroed (`v = x ∓ ‖x‖·e`, the two sign conventions). -/
def householderReflector {n : ℕ} (v : Fin n → F) : Matrix (Fin n) (Fin n) F :=
  1 - (2 / ∑ i, v i * v i) • Matrix.of fun i j => v i * v j

/-! ## Row extraction helpers -/

/-- The first `M` linear rows of a matrix indexed by `Fin Hu × Fin M`: with the
row-major layout these are exactly the rows `(0, m)`.  This is the `DU_Out` copy
loop (`DU_Out[i][0] = DU[i][0]` for `i < M`) and the `XI_DU` truncation
(`InsertSubMatrix(XI, 0, 0, 0, 0, M, Hp*Z)`). -/
def firstBlockRow {γ : Type} (hhu : 0 < Hu) (X : Matrix (Fin Hu × Fin M) γ F) :
    Matrix (Fin M) γ F :=
  fun m c => X (⟨0, hhu⟩, m) c

/-- Modelled from the spec: `InsertSubMatrix(dst, src, 0, 0, 0, 0, a2, b2)` —
the upper-left `a2 × b2` corner of a linearly indexed matrix. -/
def subUpperLeft {a b a2 b2 : ℕ} (h1 : a2 ≤ a) (h2 : b2 ≤ b) (Mt : Matrix (Fin a) (Fin b) F) :
    Matrix (Fin a2) (Fin b2) F :=
  fun i j => Mt (Fin.castLE h1 i) (Fin.castLE h2 j)

/-- The first `c` rows of a linearly indexed column vector. -/
def firstRows {a c : ℕ} (h : c ≤ a) (X : Matrix (Fin a) (Fin 1) F) :
    Matrix (Fin c) (Fin 1) F :=
  fun i j => X (Fin.castLE h i) j

/-! ## The naive policy (`mpc_engl/mpc.cpp`) -/

namespace Naive

/-- The member matrices of the `MPC` class used by the naive implementation. -/
structure State (F : Type) (N M Z Hp Hu : ℕ) where
  A : Matrix (Fin N) (Fin N) F
  B : Matrix (Fin N) (Fin M) F
  C : Matrix (Fin Z) (Fin N) F
  Q : Matrix (Fin Hp × Fin Z) (Fin Hp × Fin Z) F
  R : Matrix (Fin Hu × Fin M) (Fin Hu × Fin M) F
  CPSI : Matrix (Fin Hp × Fin Z) (Fin N) F
  COMEGA : Matrix (Fin Hp × Fin Z) (Fin M) F
  CTHETA : Matrix (Fin Hp × Fin Z) (Fin Hu × Fin M) F
  DU : Matrix (Fin Hu × Fin M) (Fin 1) F

/-- The zero-initialized members of a freshly constructed controller (the
`Matrix` constructor zero-fills). -/
def State.zero : State F N M Z Hp Hu :=
  { A := 0, B := 0, C := 0, Q := 0, R := 0, CPSI := 0, COMEGA := 0, CTHETA := 0, DU := 0 }

/-- `mpc_engl::MPC::vReInit` as a state transformer: the stacking loops insert
into the existing member matrices (`CPSI = CPSI.InsertSubMatrix(...)` etc.), so
the strictly-upper blocks of `CTHETA`, which the Toeplitz loop never writes,
keep their previous values. -/
def vReInit (s : State F N M Z Hp Hu) (A : Matrix (Fin N) (Fin N) F)
    (B : Matrix (Fin N) (Fin M) F) (C : Matrix (Fin Z) (Fin N) F) (q r : F) :
    State F N M Z Hp Hu :=
  let COMEGA1 := stackFold s.COMEGA fun i => C * tSigma A B i
  { A := A, B := B, C := C, Q := setDiag q, R := setDiag r,
    CPSI := stackFold s.CPSI fun i => C * Apow A i,
    COMEGA := COMEGA1,
    CTHETA := thetaFold s.CTHETA COMEGA1,
    DU := s.DU }

/-- `mpc_engl::MPC::bUpdate`: returns the success flag, the updated member `DU`
and the updated control vector `u`.  On a singular `H`, `DU` is zeroed and `u`
is left untouched. -/
def bUpdate (s : State F N M Z Hp Hu) (hhu : 0 < Hu)
    (SP : Matrix (Fin Hp × Fin Z) (Fin 1) F) (x : Matrix (Fin N) (Fin 1) F)
    (u : Matrix (Fin M) (Fin 1) F) :
    Bool × Matrix (Fin Hu × Fin M) (Fin 1) F × Matrix (Fin M) (Fin 1) F :=
  let Err := SP - s.CPSI * x - s.COMEGA * u
  let G := (2 : F) • (s.CTHETAᵀ * s.Q * Err)
  let H := s.CTHETAᵀ * s.Q * s.CTHETA + s.R
  let Hinv := Invers H
  if Hinv.1 then
    let DU := (1 / 2 : F) • (Hinv.2 * G)
    (true, DU, u + firstBlockRow hhu DU)
  else (false, 0, u)

end Naive

/-! ## The optimized policy (`mpc_opt_engl/mpc.cpp`, first implementation) -/

namespace Opt

/-- The member matrices of the optimized implementation (`mpc_opt_engl/mpc.h`). -/
structure State (F : Type) (N M Z Hp Hu : ℕ) where
  A : Matrix (Fin N) (Fin N) F
  B : Matrix (Fin N) (Fin M) F
  C : Matrix (Fin Z) (Fin N) F
  Q : Matrix (Fin Hp × Fin Z) (Fin Hp × Fin Z) F
  R : Matrix (Fin Hu × Fin M) (Fin Hu × Fin M) F
  SQ : Matrix (Fin Hp × Fin Z) (Fin Hp × Fin Z) F
  SR : Matrix (Fin Hu × Fin M) (Fin Hu × Fin M) F
  CPSI : Matrix (Fin Hp × Fin Z) (Fin N) F
  COMEGA : Matrix (Fin Hp × Fin Z) (Fin M) F
  CTHETA : Matrix (Fin Hp × Fin Z) (Fin Hu × Fin M) F
  XI_DU : Matrix (Fin M) (Fin Hp × Fin Z) F
  DU : Matrix (Fin Hu × Fin M) (Fin 1) F

/-- The zero-initialized members of a freshly constructed optimized controller. -/
def State.zero : State F N M Z Hp Hu :=
  { A := 0, B := 0, C := 0, Q := 0, R := 0, SQ := 0, SR := 0, CPSI := 0, COMEGA := 0,
    CTHETA := 0, XI_DU := 0, DU := 0 }

/-- `mpc_opt_engl::MPC::vReInit` as a state transformer.  All assembly happens
in zero-initialized local matrices (`_PSI`, `_OMEGA`, `_THETA`, `Cz`, `H`,
`XI`), so every offline artifact is freshly computed from the arguments; only
the unrelated member `DU` keeps its previous value.  `sq` and `sr` stand for
`sqrt(_bobotQ)` and `sqrt(_bobotR)` (modelled from the spec: `sqrt` is supplied
by `math.h`, so the square roots enter as explicit arguments, related to the
weights by `sq * sq = q` in the theorems that need it). -/
def vReInit (s : State F N M Z Hp Hu) (hhu : 0 < Hu) (A : Matrix (Fin N) (Fin N) F)
    (B : Matrix (Fin N) (Fin M) F) (C : Matrix (Fin Z) (Fin N) F) (q r sq sr : F) :
    State F N M Z Hp Hu :=
  let CT := CzForm.CTHETA A B C
  let Qw : Matrix (Fin Hp × Fin Z) (Fin Hp × Fin Z) F := setDiag q
  let H := CTᵀ * Qw * CT + setDiag r
  let HINV := Invers H
  let XI : Matrix (Fin Hu × Fin M) (Fin Hp × Fin Z) F :=
    if HINV.1 then HINV.2 * CTᵀ * Qw else 0
  { A := A, B := B, C := C, Q := Qw, R := setDiag r, SQ := setDiag sq, SR := setDiag sr,
    CPSI := CzForm.CPSI A C,
    COMEGA := CzForm.COMEGA A B C,
    CTHETA := CT,
    XI_DU := firstBlockRow hhu XI,
    DU := s.DU }

/-- `mpc_opt_engl::MPC::bUpdate`: a single matrix-vector product with the stored
gain; it always returns `true`. -/
def bUpdate (s : State F N M Z Hp Hu) (SP : Matrix (Fin Hp × Fin Z) (Fin 1) F)
    (x : Matrix (Fin N) (Fin 1) F) (u : Matrix (Fin M) (Fin 1) F) :
    Bool × Matrix (Fin M) (Fin 1) F × Matrix (Fin M) (Fin 1) F :=
  let Err := SP - s.CPSI * x - s.COMEGA * u
  let DU_Out := s.XI_DU * Err
  (true, DU_Out, u + DU_Out)

end Opt

/-! ## The least-squares policies

`mpc_least_square_engl/mpc.cpp` and the second implementation contained in
`mpc_opt_engl/mpc.cpp` share the same initialization: QR-decompose
`GammaLeft = [SQ*CTHETA; SR]` and store the factors.  They differ in how
`bUpdate` forms the reduced right-hand side from the stored orthogonal factor.

The source declares `GammaLeft`/`SquareRootLeft` with `Hp*Z` columns while only
the first `Hu*M` columns are written; under the QR contract the extra zero
columns only append zero columns to the stored triangular factor and change
neither the stored orthogonal factor nor any extracted leading block, so the
embedding keeps the `Hu*M` content columns. -/

/-- `GammaLeft` (named `SquareRootLeft` in `mpc_least_square_engl`): the stack
`[SQ * CTHETA; SR]`, with `SQ * CTHETA` inserted at row offset `0` and `SR` at
row offset `Hp*Z`.  Rows are linear indices; the product-indexed blocks are
mapped through the row-major equivalence `finProdFinEquiv`. -/
def GammaLeft (sq sr : F) (CT : Matrix (Fin Hp × Fin Z) (Fin Hu × Fin M) F) :
    Matrix (Fin (Hp * Z + Hu * M)) (Fin (Hu * M)) F :=
  fun i j =>
    if h : (i : ℕ) < Hp * Z then
      ((setDiag sq : Matrix (Fin Hp × Fin Z) (Fin Hp × Fin Z) F) * CT)
        (finProdFinEquiv.symm ⟨(i : ℕ), h⟩) (finProdFinEquiv.symm j)
    else
      (setDiag sr : Matrix (Fin Hu × Fin M) (Fin Hu × Fin M) F)
        (finProdFinEquiv.symm ⟨(i : ℕ) - Hp * Z, by omega⟩) (finProdFinEquiv.symm j)

/-- Modelled from the spec: the contract of `QRDec` (Householder QR
decomposition) — on success the first output is the TRANSPOSE `Qt` of the
orthogonal factor and the second is the upper-triangular factor `R`, with
`Qt * G = R`. -/
def IsQRDec (G : Matrix (Fin (Hp * Z + Hu * M)) (Fin (Hu * M)) F)
    (Qt : Matrix (Fin (Hp * Z + Hu * M)) (Fin (Hp * Z + Hu * M)) F)
    (RL : Matrix (Fin (Hp * Z + Hu * M)) (Fin (Hu * M)) F) : Prop :=
  Qtᵀ * Qt = 1 ∧ Qt * G = RL ∧
    ∀ (i : Fin (Hp * Z + Hu * M)) (j : Fin (Hu * M)), (j : ℕ) < (i : ℕ) → RL i j = 0

namespace Ls

/-- The member matrices of the least-squares implementations: the stored factors
are `LS_Q`/`LS_R` in `mpc_least_square_engl` and `Qt_L`/`R_L` in the
implementation inside `mpc_opt_engl`; `Qtvalid` is the validity flag of the
stored orthogonal factor (`bCekMatrixValid`). -/
structure State (F : Type) (N M Z Hp Hu : ℕ) where
  A : Matrix (Fin N) (Fin N) F
  B : Matrix (Fin N) (Fin M) F
  C : Matrix (Fin Z) (Fin N) F
  SQ : Matrix (Fin Hp × Fin Z) (Fin Hp × Fin Z) F
  SR : Matrix (Fin Hu × Fin M) (Fin Hu × Fin M) F
  CPSI : Matrix (Fin Hp × Fin Z) (Fin N) F
  COMEGA : Matrix (Fin Hp × Fin Z) (Fin M) F
  CTHETA : Matrix (Fin Hp × Fin Z) (Fin Hu × Fin M) F
  Qt : Matrix (Fin (Hp * Z + Hu * M)) (Fin (Hp * Z + Hu * M)) F
  Qtvalid : Bool
  RL : Matrix (Fin (Hp * Z + Hu * M)) (Fin (Hu * M)) F
  DU : Matrix (Fin (Hu * M)) (Fin 1) F

/-- The zero-initialized members of a freshly constructed least-squares
controller. -/
def State.zero : State F N M Z Hp Hu :=
  { A := 0, B := 0, C := 0, SQ := 0, SR := 0, CPSI := 0, COMEGA := 0, CTHETA := 0,
    Qt := 0, Qtvalid := true, RL := 0, DU := 0 }

/-- The least-squares `vReInit` (identical in both files up to local names):
build the prediction matrices through `Cz`, stack `GammaLeft` and decompose it.
`qrDec` is the `QRDec` routine of the missing matrix kernel, supplied as an
abstract function returning (validity, `Qt`, `R`); theorems that rely on the
factorization assume its output satisfies `IsQRDec`. -/
def vReInit
    (qrDec : Matrix (Fin (Hp * Z + Hu * M)) (Fin (Hu * M)) F →
      Bool × Matrix (Fin (Hp * Z + Hu * M)) (Fin (Hp * Z + Hu * M)) F ×
        Matrix (Fin (Hp * Z + Hu * M)) (Fin (Hu * M)) F)
    (s : State F N M Z Hp Hu) (A : Matrix (Fin N) (Fin N) F)
    (B : Matrix (Fin N) (Fin M) F) (C : Matrix (Fin Z) (Fin N) F) (sq sr : F) :
    State F N M Z Hp Hu :=
  let CT := CzForm.CTHETA A B C
  let qr := qrDec (GammaLeft sq sr CT)
  { A := A, B := B, C := C, SQ := setDiag sq, SR := setDiag sr,
    CPSI := CzForm.CPSI A C,
    COMEGA := CzForm.COMEGA A B C,
    CTHETA := CT,
    Qt := qr.2.1, Qtvalid := qr.1, RL := qr.2.2,
    DU := s.DU }

/-- The augmented right-hand side `[SQ*Err; 0]` (`SquareRootRight`, built by
`InsertVector` into a zero-filled vector). -/
def augRHS (w : Matrix (Fin (Hp * Z)) (Fin 1) F) :
    Matrix (Fin (Hp * Z + Hu * M)) (Fin 1) F :=
  fun i j => if h : (i : ℕ) < Hp * Z then w ⟨(i : ℕ), h⟩ j else 0

end Ls

namespace LsOld

/-- `mpc_least_square_engl::MPC::bUpdate`: check the validity flag of the stored
factor; extract the leading `Hp*Z × Hp*Z` block `Q2` of it, multiply the
weighted error by `Q2` TRANSPOSED, keep the first `Hu*M` rows, and
back-substitute against the leading `Hu*M × Hu*M` block `R2` of the stored
triangular factor — without consulting the validity of the back substitution.
Returns the flag, the updated member `DU` and the updated control. -/
def bUpdate (s : Ls.State F N M Z Hp Hu) (hZM : Hu * M ≤ Hp * Z) (hhu : 0 < Hu)
    (SP : Matrix (Fin Hp × Fin Z) (Fin 1) F) (x : Matrix (Fin N) (Fin 1) F)
    (u : Matrix (Fin M) (Fin 1) F) :
    Bool × Matrix (Fin (Hu * M)) (Fin 1) F × Matrix (Fin M) (Fin 1) F :=
  let Err := SP - s.CPSI * x - s.COMEGA * u
  if s.Qtvalid then
    let Q2 := subUpperLeft (Nat.le_add_right _ _) (Nat.le_add_right _ _) s.Qt
    let SQE := ((s.SQ * Err).submatrix finProdFinEquiv.symm id :
      Matrix (Fin (Hp * Z)) (Fin 1) F)
    let DUFULL2 := Q2ᵀ * SQE
    let DU0 := firstRows hZM DUFULL2
    let R2 := subUpperLeft (Nat.le_add_left _ _) le_rfl s.RL
    let DU := (BackSubtitution R2 DU0).2
    (true, DU, u + firstRows (Nat.le_mul_of_pos_left M hhu) DU)
  else (false, 0, u)

end LsOld

namespace LsNew

/-- The least-squares `bUpdate` contained in `mpc_opt_engl/mpc.cpp`: check the
validity flag; take the first `Hp*Z` COLUMNS `Q1` of the stored transposed
factor (so that `Q1 * (SQ*Err)` is the full factor applied to the augmented
right-hand side, whose zero tail drops out), keep the first `Hu*M` rows as
`BackSubRight`, and back-substitute against the leading `Hu*M × Hu*M` block
`R1` of the stored triangular factor. -/
def bUpdate (s : Ls.State F N M Z Hp Hu) (hhu : 0 < Hu)
    (SP : Matrix (Fin Hp × Fin Z) (Fin 1) F) (x : Matrix (Fin N) (Fin 1) F)
    (u : Matrix (Fin M) (Fin 1) F) :
    Bool × Matrix (Fin (Hu * M)) (Fin 1) F × Matrix (Fin M) (Fin 1) F :=
  let Err := SP - s.CPSI * x - s.COMEGA * u
  if s.Qtvalid then
    let Q1 : Matrix (Fin (Hp * Z + Hu * M)) (Fin (Hp * Z)) F :=
      fun i j => s.Qt i (Fin.castLE (Nat.le_add_right _ _) j)
    let SQE := ((s.SQ * Err).submatrix finProdFinEquiv.symm id :
      Matrix (Fin (Hp * Z)) (Fin 1) F)
    let Qt_LSQE := Q1 * SQE
    let BackSubRight := firstRows (Nat.le_add_left _ _) Qt_LSQE
    let R1 := subUpperLeft (Nat.le_add_left _ _) le_rfl s.RL
    let DU := (BackSubtitution R1 BackSubRight).2
    (true, DU, u + firstRows (Nat.le_mul_of_pos_left M hhu) DU)
  else (false, 0, u)

end LsNew


/-! ## Concrete instances used by witnesses and counterexamples -/

namespace Inst

/-- A one-dimensional naive controller state: plant `A = 0`, `B = 1`, `C = 1`,
unit weights, horizons `Hp = Hu = 1`. -/
def sN : Naive.State ℚ 1 1 1 1 1 :=
  Naive.vReInit Naive.State.zero !![0] !![1] !![1] 1 1

/-- The per-cycle matrix `H` of the state `sN`. -/
def HN : Matrix (Fin 1 × Fin 1) (Fin 1 × Fin 1) ℚ :=
  sN.CTHETAᵀ * sN.Q * sN.CTHETA + sN.R

/-- A concrete setpoint vector (constant `4`) over the one-step horizon. -/
def SP1 : Matrix (Fin 1 × Fin 1) (Fin 1) ℚ :=
  fun _ _ => 4

/-- The weighted predicted-error vector of `sN` at `SP = SP1`, `x = 0`, `u = 0`
(the right-hand side `CTHETAᵀ·Q·Err` of the normal equations). -/
def rhsN : Matrix (Fin 1 × Fin 1) (Fin 1) ℚ :=
  sN.CTHETAᵀ * sN.Q *
    (SP1 - sN.CPSI * (!![0] : Matrix (Fin 1) (Fin 1) ℚ) -
      sN.COMEGA * (!![0] : Matrix (Fin 1) (Fin 1) ℚ))

/-- The `CTHETA` of the one-dimensional optimized controller below. -/
def thetaO : Matrix (Fin 1 × Fin 1) (Fin 1 × Fin 1) ℚ :=
  CzForm.CTHETA !![0] !![1] !![1]

/-- The offline `H` computed by the optimized `vReInit` below. -/
def HO : Matrix (Fin 1 × Fin 1) (Fin 1 × Fin 1) ℚ :=
  thetaOᵀ * setDiag 1 * thetaO + setDiag 1

/-- A one-dimensional optimized controller state with unit weights. -/
def sO : Opt.State ℚ 1 1 1 1 1 :=
  Opt.vReInit Opt.State.zero Nat.one_pos !![0] !![1] !![1] 1 1 1 1

/-- A degenerate optimized controller: zero plant and zero weights, so the
offline `H` is the zero matrix and its inversion fails. -/
def sO0 : Opt.State ℚ 1 1 1 1 1 :=
  Opt.vReInit Opt.State.zero Nat.one_pos !![0] !![0] !![0] 0 0 0 0

/-- The (singular) offline `H` computed inside the initialization of `sO0`. -/
def HO0 : Matrix (Fin 1 × Fin 1) (Fin 1 × Fin 1) ℚ :=
  (CzForm.CTHETA !![0] !![0] !![0])ᵀ * setDiag 0 * CzForm.CTHETA !![0] !![0] !![0] +
    setDiag 0

/-- A degenerate naive controller: zero plant and zero weights. -/
def sN0 : Naive.State ℚ 1 1 1 1 1 :=
  Naive.vReInit Naive.State.zero !![0] !![0] !![0] 0 0

/-- A `QRDec` stub that reports failure, modelling a decomposition rejected by
the rank-deficiency check. -/
def qrDec0 : Matrix (Fin (1 * 1 + 1 * 1)) (Fin (1 * 1)) ℚ →
    Bool × Matrix (Fin (1 * 1 + 1 * 1)) (Fin (1 * 1 + 1 * 1)) ℚ ×
      Matrix (Fin (1 * 1 + 1 * 1)) (Fin (1 * 1)) ℚ :=
  fun _ => (false, 0, 0)

/-- A least-squares controller whose stored factorization is invalid. -/
def sL0 : Ls.State ℚ 1 1 1 1 1 :=
  Ls.vReInit qrDec0 Ls.State.zero !![0] !![0] !![0] 0 0

/-- A stored triangular factor whose leading `Hu*M × Hu*M` block has a zero
diagonal entry: row `0` is `[1, 1]`, all other rows are zero. -/
def RLC10 : Matrix (Fin (2 * 1 + 2 * 1)) (Fin (2 * 1)) ℚ :=
  fun i _ => if (i : ℕ) = 0 then 1 else 0

/-- A least-squares controller state (`Hp = Hu = 2`, `N = M = Z = 1`) with a
valid stored orthogonal factor (the identity) but a rank-deficient stored
triangular factor `RLC10`. -/
def sLC10 : Ls.State ℚ 1 1 1 2 2 :=
  { A := 0, B := 0, C := 0, SQ := setDiag 1, SR := setDiag 1, CPSI := 0, COMEGA := 0,
    CTHETA := 0, Qt := 1, Qtvalid := true, RL := RLC10, DU := 0 }

/-- A setpoint vector `[1; 0]` over the two-step horizon. -/
def SPC10 : Matrix (Fin 2 × Fin 1) (Fin 1) ℚ :=
  fun i _ => if (i.1 : ℕ) = 0 then 1 else 0

/-- The Householder reflection vector for `GammaLeft = [1; 2; 2]` of the plant
`A = B = C = 1` (`Hp = 2`, `Hu = 1`, `sq = 1`, `sr = 2`): `v = (1,2,2) - 3·e₀`
(`‖(1,2,2)‖ = 3`). -/
def vC6 : Fin (2 * 1 + 1 * 1) → ℚ :=
  ![-2, 2, 2]

/-- The transposed orthogonal factor the Householder `QRDec` stores for
`GammaLeft = [1; 2; 2]`: with a single effective column there is exactly one
reflection, so `Qt` is the (symmetric) reflector `I - (2/vᵀv)·v·vᵀ` for `vC6`. -/
def QtC6 : Matrix (Fin (2 * 1 + 1 * 1)) (Fin (2 * 1 + 1 * 1)) ℚ :=
  !![1/3, 2/3, 2/3; 2/3, 1/3, -2/3; 2/3, -2/3, 1/3]

/-- The matching upper-triangular factor: `QtC6 * [1; 2; 2] = [3; 0; 0]`. -/
def RLC6 : Matrix (Fin (2 * 1 + 1 * 1)) (Fin (1 * 1)) ℚ :=
  !![3; 0; 0]

/-- A `QRDec` stub returning the concrete factorization above. -/
def qrDecC6 : Matrix (Fin (2 * 1 + 1 * 1)) (Fin (1 * 1)) ℚ →
    Bool × Matrix (Fin (2 * 1 + 1 * 1)) (Fin (2 * 1 + 1 * 1)) ℚ ×
      Matrix (Fin (2 * 1 + 1 * 1)) (Fin (1 * 1)) ℚ :=
  fun _ => (true, QtC6, RLC6)

/-- The least-squares controller (`Hp = 2`, `Hu = 1`, `N = M = Z = 1`) for the
plant `A = B = C = 1` with weights `q = 1`, `r = 4` (`sq = 1`, `sr = 2`),
initialized with the concrete factorization `qrDecC6`. -/
def sLC6 : Ls.State ℚ 1 1 1 2 1 :=
  Ls.vReInit qrDecC6 Ls.State.zero !![1] !![1] !![1] 1 2

/-- A setpoint vector `[0; 1]` over the two-step horizon. -/
def SPC6 : Matrix (Fin 2 × Fin 1) (Fin 1) ℚ :=
  fun i _ => if (i.1 : ℕ) = 0 then 0 else 1

/-- The two-move counterexample configuration: plant `A = -1/4`, `B = 1`,
`C = 4` over `Hp = Hu = 2`, `N = M = Z = 1`, weights `q = 1` (`sq = 1`) and
`r = 144` (`sr = 12`).  Its `CTHETA` is `[[4,0],[3,4]]`, so
`GammaLeft = [[4,0],[3,4],[12,0],[0,12]]`, and both Householder column norms
are rational (`‖(4,3,12,0)‖ = 13`, second step `164/13`): the Householder
factorization is exact in `ℚ`. -/
def thetaX : Matrix (Fin 2 × Fin 1) (Fin 2 × Fin 1) ℚ :=
  CzForm.CTHETA !![(-1/4 : ℚ)] !![1] !![4]

/-- First Householder reflection vector, `R₁₁ > 0` convention:
`v = (4,3,12,0) - 13·e₀`. -/
def vX1p : Fin (2 * 1 + 2 * 1) → ℚ :=
  ![-9, 3, 12, 0]

/-- Second Householder reflection vector, `R₂₂ > 0` convention: the trailing
part of the intermediate second column is `(48/13, -16/13, 12)` with norm
`164/13`, giving `v = (0, 48/13 - 164/13, -16/13, 12)`. -/
def vX2p : Fin (2 * 1 + 2 * 1) → ℚ :=
  ![0, -116/13, -16/13, 12]

/-- First Householder reflection vector, `R₁₁ < 0` convention (the
`sign(x₁)`-stable choice): `v = (4,3,12,0) + 13·e₀`. -/
def vX1m : Fin (2 * 1 + 2 * 1) → ℚ :=
  ![17, 3, 12, 0]

/-- Second Householder reflection vector, `R₂₂ < 0` convention: the trailing
part of the intermediate second column is `(848/221, -144/221, 12)` with norm
`164/13`, giving `v = (0, 848/221 + 164/13, -144/221, 12)`. -/
def vX2m : Fin (2 * 1 + 2 * 1) → ℚ :=
  ![0, 3636/221, -144/221, 12]

/-- The transposed orthogonal factor the Householder `QRDec` stores for the
`thetaX` configuration under the positive-diagonal convention: the product of
the two reflectors for `vX2p` and `vX1p`.  Its leading `Hp*Z × Hp*Z` block
`[[4/13, 3/13], [-12/533, 160/533]]` is not symmetric. -/
def QtXp : Matrix (Fin (2 * 1 + 2 * 1)) (Fin (2 * 1 + 2 * 1)) ℚ :=
  !![4/13, 3/13, 12/13, 0;
     -12/533, 160/533, -36/533, 39/41;
     1056/1189, -468/1189, -235/1189, 156/1189;
     405/1189, 996/1189, -384/1189, -332/1189]

/-- The matching triangular factor: `QtXp * GammaLeft = [[13, 12/13],
[0, 164/13], [0, 0], [0, 0]]`. -/
def RLXp : Matrix (Fin (2 * 1 + 2 * 1)) (Fin (2 * 1)) ℚ :=
  !![13, 12/13; 0, 164/13; 0, 0; 0, 0]

/-- The stored transposed orthogonal factor under the negative-diagonal
convention (reflectors for `vX2m` and `vX1m`); its leading block is again not
symmetric. -/
def QtXm : Matrix (Fin (2 * 1 + 2 * 1)) (Fin (2 * 1 + 2 * 1)) ℚ :=
  !![-4/13, -3/13, -12/13, 0;
     12/533, -160/533, 36/533, -39/41;
     -3864/4141, -468/4141, 1405/4141, 156/4141;
     765/4141, -3804/4141, 696/4141, 1268/4141]

/-- The matching triangular factor for the negative-diagonal convention. -/
def RLXm : Matrix (Fin (2 * 1 + 2 * 1)) (Fin (2 * 1)) ℚ :=
  !![-13, -12/13; 0, -164/13; 0, 0; 0, 0]

/-- `QRDec` outputs at the `thetaX` configuration, positive-diagonal
convention. -/
def qrDecXp : Matrix (Fin (2 * 1 + 2 * 1)) (Fin (2 * 1)) ℚ →
    Bool × Matrix (Fin (2 * 1 + 2 * 1)) (Fin (2 * 1 + 2 * 1)) ℚ ×
      Matrix (Fin (2 * 1 + 2 * 1)) (Fin (2 * 1)) ℚ :=
  fun _ => (true, QtXp, RLXp)

/-- `QRDec` outputs at the `thetaX` configuration, negative-diagonal
convention. -/
def qrDecXm : Matrix (Fin (2 * 1 + 2 * 1)) (Fin (2 * 1)) ℚ →
    Bool × Matrix (Fin (2 * 1 + 2 * 1)) (Fin (2 * 1 + 2 * 1)) ℚ ×
      Matrix (Fin (2 * 1 + 2 * 1)) (Fin (2 * 1)) ℚ :=
  fun _ => (true, QtXm, RLXm)

/-- The least-squares controller initialized at the `thetaX` configuration
with the positive-diagonal Householder factorization. -/
def sLXp : Ls.State ℚ 1 1 1 2 2 :=
  Ls.vReInit qrDecXp Ls.State.zero !![(-1/4 : ℚ)] !![1] !![4] 1 12

/-- The least-squares controller initialized at the `thetaX` configuration
with the negative-diagonal Householder factorization. -/
def sLXm : Ls.State ℚ 1 1 1 2 2 :=
  Ls.vReInit qrDecXm Ls.State.zero !![(-1/4 : ℚ)] !![1] !![4] 1 12

/-- The naive controller freshly constructed at the same configuration
(`q = 1`, `r = sr² = 144`). -/
def sNX : Naive.State ℚ 1 1 1 2 2 :=
  Naive.vReInit Naive.State.zero !![(-1/4 : ℚ)] !![1] !![4] 1 144

/-- The `2 × 2` Hessian of the `thetaX` configuration:
`H = CTHETAᵀ·CTHETA + 144·I = [[169, 12], [12, 160]]`. -/
def HXof : Matrix (Fin 2 × Fin 1) (Fin 2 × Fin 1) ℚ :=
  Matrix.of fun i j =>
    if (i.1 : ℕ) = 0 then (if (j.1 : ℕ) = 0 then 169 else 12)
    else (if (j.1 : ℕ) = 0 then 12 else 160)

/-- The reduced right-hand side `CTHETAᵀ·Q·SP = (3, 4)` at the setpoint
`[0; 1]`. -/
def rhsX : Matrix (Fin 2 × Fin 1) (Fin 1) ℚ :=
  Matrix.of fun i _ => if (i.1 : ℕ) = 0 then 3 else 4

/-- The naive/optimal increment at the `thetaX` configuration:
`H⁻¹·(3,4) = (27/1681, 40/1681)`. -/
def duX : Matrix (Fin 2 × Fin 1) (Fin 1) ℚ :=
  Matrix.of fun i _ => if (i.1 : ℕ) = 0 then 27/1681 else 40/1681

/-- The increment computed by the `mpc_least_square_engl` `bUpdate` at the
`thetaX` configuration (either sign convention): `(-972/284089, 40/1681)`. -/
def duOldX : Matrix (Fin (2 * 1)) (Fin 1) ℚ :=
  Matrix.of fun i _ => if (i : ℕ) = 0 then -972/284089 else 40/1681

/-- The increment described by the claim (and computed by the `mpc_opt_engl`
least-squares `bUpdate`): the linear reindexing of `duX`. -/
def duClaimX : Matrix (Fin (2 * 1)) (Fin 1) ℚ :=
  Matrix.of fun i _ => if (i : ℕ) = 0 then 27/1681 else 40/1681

end Inst

/-! ## Lemmas about the embedded definitions -/

lemma stackFold_foldl_apply {hp : ℕ} {β γ : Type} (blocks : Fin hp → Matrix β γ F)
    (l : List (Fin hp)) (start : Matrix (Fin hp × β) γ F) (i : Fin hp) (b : β) (c : γ) :
    (l.foldl (fun d j => insertRowBlock d j (blocks j)) start) (i, b) c =
      if i ∈ l then blocks i b c else start (i, b) c := by
  induction l generalizing start with
  | nil => simp
  | cons a l ih =>
    simp only [List.foldl_cons, ih, List.mem_cons]
    by_cases hl : i ∈ l
    · simp [hl]
    · by_cases ha : i = a
      · subst ha
        simp [hl, insertRowBlock]
      · simp [hl, ha, insertRowBlock]


/-- Every row block of a fully assembled stack is the inserted block; the value of
`start` is irrelevant because the loop covers every block row. -/
lemma stackFold_apply {hp : ℕ} {β γ : Type} (start : Matrix (Fin hp × β) γ F)
    (blocks : Fin hp → Matrix β γ F) (i : Fin hp) (b : β) (c : γ) :
    stackFold start blocks (i, b) c = blocks i b c := by
  simp [stackFold, stackFold_foldl_apply, List.mem_finRange]


lemma thetaFold_foldl_apply {hp hu : ℕ} {β γ : Type} (om : Matrix (Fin hp × β) γ F)
    (l : List (Fin hu)) (start : Matrix (Fin hp × β) (Fin hu × γ) F)
    (r : Fin hp × β) (c : Fin hu × γ) :
    (l.foldl (fun d j => insertThetaBlock d j om) start) r c =
      if c.1 ∈ l then insertThetaBlock start c.1 om r c else start r c := by
  induction l generalizing start with
  | nil => simp
  | cons a l ih =>
    simp only [List.foldl_cons, ih, List.mem_cons]
    by_cases hl : c.1 ∈ l
    · simp only [hl, if_true, or_true]
      by_cases hle : (c.1 : ℕ) ≤ (r.1 : ℕ)
      · simp [insertThetaBlock, hle]
      · by_cases ha : c.1 = a
        · simp [insertThetaBlock, hle, ← ha]
        · simp [insertThetaBlock, hle, ha]
    · by_cases ha : c.1 = a
      · have hl2 : a ∉ l := fun h => hl (ha ▸ h)
        simp [hl, hl2, ha, insertThetaBlock]
      · simp [hl, ha, insertThetaBlock]


/-- Closed form of the Toeplitz assembly: block `(r, c)` is the `(r - c)`-th block
of `om` when `c ≤ r`; blocks with `r < c` keep the value of `start`. -/
lemma thetaFold_apply {hp hu : ℕ} {β γ : Type}
    (start : Matrix (Fin hp × β) (Fin hu × γ) F) (om : Matrix (Fin hp × β) γ F)
    (r : Fin hp × β) (c : Fin hu × γ) :
    thetaFold start om r c =
      if (c.1 : ℕ) ≤ (r.1 : ℕ) then
        om (⟨(r.1 : ℕ) - (c.1 : ℕ), lt_of_le_of_lt (Nat.sub_le _ _) r.1.2⟩, r.2) c.2
      else start r c := by
  simp [thetaFold, thetaFold_foldl_apply, List.mem_finRange, insertThetaBlock]


lemma Apow_eq {n : ℕ} (A : Matrix (Fin n) (Fin n) F) (i : ℕ) : Apow A i = A ^ (i + 1) := by
  induction i with
  | zero => simp [Apow]
  | succ i ih => rw [Apow, ih, ← pow_succ]


lemma tSigma_eq {n m : ℕ} (A : Matrix (Fin n) (Fin n) F) (B : Matrix (Fin n) (Fin m) F)
    (i : ℕ) : tSigma A B i = ∑ j ∈ Finset.range (i + 1), A ^ j * B := by
  induction i with
  | zero => simp [tSigma]
  | succ i ih =>
    rw [tSigma, ih, Apow_eq]
    exact (Finset.sum_range_succ _ _).symm


namespace Naive

lemma naiveCPSI_apply (A : Matrix (Fin N) (Fin N) F) (C : Matrix (Fin Z) (Fin N) F)
    (i : Fin Hp) (z : Fin Z) (n : Fin N) :
    CPSI A C (i, z) n = (C * A ^ ((i : ℕ) + 1)) z n := by
  rw [CPSI, stackFold_apply, Apow_eq]

end Naive


namespace Naive

lemma naiveCOMEGA_apply (A : Matrix (Fin N) (Fin N) F) (B : Matrix (Fin N) (Fin M) F)
    (C : Matrix (Fin Z) (Fin N) F) (i : Fin Hp) (z : Fin Z) (m : Fin M) :
    COMEGA A B C (i, z) m = (C * ∑ j ∈ Finset.range ((i : ℕ) + 1), A ^ j * B) z m := by
  rw [COMEGA, stackFold_apply, tSigma_eq]

end Naive


namespace Naive

lemma naiveCTHETA_apply (A : Matrix (Fin N) (Fin N) F) (B : Matrix (Fin N) (Fin M) F)
    (C : Matrix (Fin Z) (Fin N) F) (r : Fin Hp) (z : Fin Z) (c : Fin Hu) (m : Fin M) :
    CTHETA A B C (r, z) (c, m) =
      if (c : ℕ) ≤ (r : ℕ) then
        COMEGA A B C (⟨(r : ℕ) - (c : ℕ), lt_of_le_of_lt (Nat.sub_le _ _) r.2⟩, z) m
      else 0 := by
  rw [CTHETA, thetaFold_apply]
  rfl

end Naive


namespace CzForm

lemma Cz_foldl_apply (C : Matrix (Fin Z) (Fin N) F) (l : List (Fin Hp))
    (start : Matrix (Fin Hp × Fin Z) (Fin Hp × Fin N) F) (r : Fin Hp × Fin Z)
    (c : Fin Hp × Fin N) :
    (l.foldl (fun d i => insertDiagBlock d i C) start) r c =
      if r.1 = c.1 ∧ r.1 ∈ l then C r.2 c.2 else start r c := by
  induction l generalizing start with
  | nil => simp
  | cons a l ih =>
    rw [List.foldl_cons, ih]
    simp only [List.mem_cons, insertDiagBlock]
    by_cases hd : r.1 = c.1
    · by_cases hl : r.1 ∈ l
      · rw [if_pos ⟨hd, hl⟩, if_pos ⟨hd, Or.inr hl⟩]
      · rw [if_neg (fun h => hl h.2)]
        by_cases ha : r.1 = a
        · rw [if_pos ⟨ha, hd.symm.trans ha⟩, if_pos ⟨hd, Or.inl ha⟩]
        · rw [if_neg (fun h => ha h.1), if_neg (fun h => h.2.elim ha hl)]
    · rw [if_neg (fun h => hd h.1), if_neg (fun h => hd (h.1.trans h.2.symm)),
        if_neg (fun h => hd h.1)]

end CzForm


namespace CzForm

lemma Cz_apply (C : Matrix (Fin Z) (Fin N) F) (r : Fin Hp × Fin Z) (c : Fin Hp × Fin N) :
    Cz C r c = if r.1 = c.1 then C r.2 c.2 else 0 := by
  rw [Cz, Cz_foldl_apply]
  simp [List.mem_finRange]

end CzForm


namespace CzForm

/-- Multiplying by `Cz` applies `C` block-row-wise. -/
lemma Cz_mul_apply {γ : Type} [Fintype γ] (C : Matrix (Fin Z) (Fin N) F)
    (X : Matrix (Fin Hp × Fin N) γ F) (i : Fin Hp) (z : Fin Z) (g : γ) :
    ((Cz C : Matrix (Fin Hp × Fin Z) (Fin Hp × Fin N) F) * X) (i, z) g =
      ∑ m : Fin N, C z m * X (i, m) g := by
  rw [Matrix.mul_apply]
  rw [Fintype.sum_prod_type]
  rw [Finset.sum_eq_single_of_mem i (Finset.mem_univ i)]
  · simp [Cz_apply]
  · intro j _ hj
    simp [Cz_apply, (Ne.symm hj : ¬ i = j)]

end CzForm


namespace CzForm

lemma CPSI_apply (A : Matrix (Fin N) (Fin N) F) (C : Matrix (Fin Z) (Fin N) F)
    (i : Fin Hp) (z : Fin Z) (n : Fin N) :
    CPSI A C (i, z) n = (C * A ^ ((i : ℕ) + 1)) z n := by
  rw [CPSI, Cz_mul_apply, Matrix.mul_apply]
  refine Finset.sum_congr rfl fun m _ => ?_
  rw [PSI, stackFold_apply, Apow_eq]

end CzForm


namespace CzForm

lemma COMEGA_apply (A : Matrix (Fin N) (Fin N) F) (B : Matrix (Fin N) (Fin M) F)
    (C : Matrix (Fin Z) (Fin N) F) (i : Fin Hp) (z : Fin Z) (m : Fin M) :
    COMEGA A B C (i, z) m = (C * ∑ j ∈ Finset.range ((i : ℕ) + 1), A ^ j * B) z m := by
  rw [COMEGA, Cz_mul_apply, Matrix.mul_apply]
  refine Finset.sum_congr rfl fun n _ => ?_
  rw [OMEGA, stackFold_apply, tSigma_eq]

end CzForm


namespace CzForm

/-- Both `COMEGA` constructions agree entrywise. -/
lemma COMEGA_eq_naive (A : Matrix (Fin N) (Fin N) F) (B : Matrix (Fin N) (Fin M) F)
    (C : Matrix (Fin Z) (Fin N) F) :
    (COMEGA A B C : Matrix (Fin Hp × Fin Z) (Fin M) F) = Naive.COMEGA A B C := by
  ext ⟨i, z⟩ m
  rw [COMEGA_apply, Naive.naiveCOMEGA_apply]

end CzForm


namespace CzForm

/-- Both `CPSI` constructions agree entrywise. -/
lemma CPSI_eq_naive (A : Matrix (Fin N) (Fin N) F) (C : Matrix (Fin Z) (Fin N) F) :
    (CPSI A C : Matrix (Fin Hp × Fin Z) (Fin N) F) = Naive.CPSI A C := by
  ext ⟨i, z⟩ n
  rw [CPSI_apply, Naive.naiveCPSI_apply]

end CzForm


namespace CzForm

lemma CTHETA_apply (A : Matrix (Fin N) (Fin N) F) (B : Matrix (Fin N) (Fin M) F)
    (C : Matrix (Fin Z) (Fin N) F) (r : Fin Hp) (z : Fin Z) (c : Fin Hu) (m : Fin M) :
    CTHETA A B C (r, z) (c, m) =
      if (c : ℕ) ≤ (r : ℕ) then
        COMEGA A B C (⟨(r : ℕ) - (c : ℕ), lt_of_le_of_lt (Nat.sub_le _ _) r.2⟩, z) m
      else 0 := by
  rw [CTHETA, Cz_mul_apply]
  by_cases h : (c : ℕ) ≤ (r : ℕ)
  · rw [if_pos h, COMEGA, Cz_mul_apply]
    refine Finset.sum_congr rfl fun n _ => ?_
    rw [THETA, thetaFold_apply]
    simp [h, OMEGA]
  · rw [if_neg h]
    refine Finset.sum_eq_zero fun n _ => ?_
    rw [THETA, thetaFold_apply]
    simp [h]

end CzForm


namespace CzForm

/-- Both `CTHETA` constructions agree entrywise. -/
lemma CTHETA_eq_naive (A : Matrix (Fin N) (Fin N) F) (B : Matrix (Fin N) (Fin M) F)
    (C : Matrix (Fin Z) (Fin N) F) :
    (CTHETA A B C : Matrix (Fin Hp × Fin Z) (Fin Hu × Fin M) F) = Naive.CTHETA A B C := by
  ext ⟨r, z⟩ ⟨c, m⟩
  rw [CTHETA_apply, Naive.naiveCTHETA_apply, COMEGA_eq_naive]

end CzForm


lemma Invers_of_ne {ι : Type} [Fintype ι] [DecidableEq ι] (Mt : Matrix ι ι F)
    (h : Mt.det ≠ 0) : Invers Mt = (true, Mt⁻¹) := by
  rw [Invers, if_pos h, Matrix.inv_def, Ring.inverse_eq_inv]


lemma Invers_of_eq {ι : Type} [Fintype ι] [DecidableEq ι] (Mt : Matrix ι ι F)
    (h : Mt.det = 0) : Invers Mt = (false, 0) := by
  rw [Invers, if_neg (by simpa using h)]


lemma backSolveAux_invariant {n : ℕ} (U : Matrix (Fin n) (Fin n) F)
    (b : Matrix (Fin n) (Fin 1) F) (k : ℕ) (hk : k ≤ n) :
    (∀ i : Fin n, (i : ℕ) < n - k → backSolveAux U b k i = 0) ∧
      (∀ i : Fin n, n - k ≤ (i : ℕ) →
        backSolveAux U b k i =
          (b i 0 - ∑ j : Fin n, if i < j then U i j * backSolveAux U b k j else 0) / U i i) := by
  induction k with
  | zero =>
    refine ⟨fun i _ => rfl, fun i hi => absurd hi (by omega)⟩
  | succ k ih =>
    obtain ⟨ih0, ihsolved⟩ := ih (Nat.le_of_succ_le hk)
    have hlt : n - (k + 1) < n := by omega
    have hstep : backSolveAux U b (k + 1) =
        backSubStep U b (backSolveAux U b k) ⟨n - (k + 1), hlt⟩ := by
      rw [backSolveAux, dif_pos hlt]
    constructor
    · intro i hi
      have hib : (i : ℕ) < n - k := by omega
      have hnei : i ≠ (⟨n - (k + 1), hlt⟩ : Fin n) := by
        intro h
        have h2 := congrArg Fin.val h
        simp at h2
        omega
      rw [hstep, backSubStep, Function.update_noteq hnei]
      exact ih0 i hib
    · intro i hi
      rcases eq_or_lt_of_le hi with heq | hlt2
      · -- the freshly solved row
        have hieq : i = (⟨n - (k + 1), hlt⟩ : Fin n) := Fin.ext (by simpa using heq.symm)
        subst hieq
        rw [hstep, backSubStep, Function.update_same]
        congr 1
        congr 1
        refine Finset.sum_congr rfl fun j _ => ?_
        by_cases hj : (⟨n - (k + 1), hlt⟩ : Fin n) < j
        · rw [if_pos hj, if_pos hj, Function.update_noteq (ne_of_lt hj).symm]
        · rw [if_neg hj, if_neg hj]
      · -- rows already solved at step k
        have hik : n - k ≤ (i : ℕ) := by omega
        have hnei : i ≠ (⟨n - (k + 1), hlt⟩ : Fin n) := by
          intro h
          have h2 := congrArg Fin.val h
          simp at h2
          omega
        rw [hstep, backSubStep, Function.update_noteq hnei, ihsolved i hik]
        congr 1
        congr 1
        refine Finset.sum_congr rfl fun j _ => ?_
        by_cases hj : i < j
        · have hjgt : (⟨n - (k + 1), hlt⟩ : Fin n) < j := by
            rw [Fin.lt_def]
            simp only [Fin.val_mk]
            omega
          rw [if_pos hj, if_pos hj, Function.update_noteq (ne_of_lt hjgt).symm]
        · rw [if_neg hj, if_neg hj]


/-- Each solved row satisfies its defining equation. -/
lemma backSolveAux_row {n : ℕ} (U : Matrix (Fin n) (Fin n) F)
    (b : Matrix (Fin n) (Fin 1) F) (i : Fin n) :
    backSolveAux U b n i =
      (b i 0 - ∑ j : Fin n, if i < j then U i j * backSolveAux U b n j else 0) / U i i :=
  (backSolveAux_invariant U b n le_rfl).2 i (by omega)


/-- Back substitution really solves the system: for an upper-triangular matrix
with nonvanishing diagonal, `U * x = b`. -/
lemma firstBlockRow_zero {γ : Type} (hhu : 0 < Hu) :
    firstBlockRow hhu (0 : Matrix (Fin Hu × Fin M) γ F) = 0 :=
  rfl

lemma firstBlockRow_mul {ι : Type} [Fintype ι] (hhu : 0 < Hu)
    (X : Matrix (Fin Hu × Fin M) ι F) (v : Matrix ι (Fin 1) F) :
    firstBlockRow hhu X * v = firstBlockRow hhu (X * v) := by
  funext m c
  simp [firstBlockRow, Matrix.mul_apply]

namespace Naive

lemma vReInit_CPSI (s : State F N M Z Hp Hu) (A : Matrix (Fin N) (Fin N) F)
    (B : Matrix (Fin N) (Fin M) F) (C : Matrix (Fin Z) (Fin N) F) (q r : F) :
    (vReInit s A B C q r).CPSI = CPSI A C := by
  ext ⟨i, z⟩ n
  simp only [vReInit, CPSI]
  rw [stackFold_apply, stackFold_apply]

lemma vReInit_COMEGA (s : State F N M Z Hp Hu) (A : Matrix (Fin N) (Fin N) F)
    (B : Matrix (Fin N) (Fin M) F) (C : Matrix (Fin Z) (Fin N) F) (q r : F) :
    (vReInit s A B C q r).COMEGA = COMEGA A B C := by
  ext ⟨i, z⟩ m
  simp only [vReInit, COMEGA]
  rw [stackFold_apply, stackFold_apply]

/-- The Toeplitz loop only writes blocks with `c ≤ r`; the remaining entries keep
the value held by the member matrix before the call. -/
lemma vReInit_CTHETA_apply (s : State F N M Z Hp Hu) (A : Matrix (Fin N) (Fin N) F)
    (B : Matrix (Fin N) (Fin M) F) (C : Matrix (Fin Z) (Fin N) F) (q r : F)
    (rr : Fin Hp × Fin Z) (c : Fin Hu × Fin M) :
    (vReInit s A B C q r).CTHETA rr c =
      if (c.1 : ℕ) ≤ (rr.1 : ℕ) then CTHETA A B C rr c else s.CTHETA rr c := by
  simp only [vReInit, CTHETA]
  rw [thetaFold_apply, thetaFold_apply]
  by_cases h : (c.1 : ℕ) ≤ (rr.1 : ℕ)
  · simp only [if_pos h, COMEGA, stackFold_apply]
  · simp only [if_neg h]

lemma vReInit_CTHETA_of_zero (s : State F N M Z Hp Hu) (A : Matrix (Fin N) (Fin N) F)
    (B : Matrix (Fin N) (Fin M) F) (C : Matrix (Fin Z) (Fin N) F) (q r : F)
    (hz : ∀ (rr : Fin Hp × Fin Z) (c : Fin Hu × Fin M),
      (rr.1 : ℕ) < (c.1 : ℕ) → s.CTHETA rr c = 0) :
    (vReInit s A B C q r).CTHETA = CTHETA A B C := by
  ext rr c
  rw [vReInit_CTHETA_apply]
  by_cases h : (c.1 : ℕ) ≤ (rr.1 : ℕ)
  · rw [if_pos h]
  · rw [if_neg h, hz rr c (by omega), CTHETA, thetaFold_apply, if_neg h]
    rfl

/-- The naive `bUpdate`, valid branch: the `2` in `G` and the `0.5` in the final
solve cancel, leaving `du = H⁻¹ · CTHETAᵀ · Q · Err`. -/
lemma bUpdate_valid (s : State F N M Z Hp Hu) (hhu : 0 < Hu)
    (SP : Matrix (Fin Hp × Fin Z) (Fin 1) F) (x : Matrix (Fin N) (Fin 1) F)
    (u : Matrix (Fin M) (Fin 1) F)
    (hdet : (s.CTHETAᵀ * s.Q * s.CTHETA + s.R).det ≠ 0) :
    bUpdate s hhu SP x u =
      (true,
        (s.CTHETAᵀ * s.Q * s.CTHETA + s.R)⁻¹ *
          (s.CTHETAᵀ * s.Q * (SP - s.CPSI * x - s.COMEGA * u)),
        u + firstBlockRow hhu ((s.CTHETAᵀ * s.Q * s.CTHETA + s.R)⁻¹ *
          (s.CTHETAᵀ * s.Q * (SP - s.CPSI * x - s.COMEGA * u)))) := by
  have h2 : (2 : F) ≠ 0 := by norm_num
  simp only [bUpdate, Invers_of_ne _ hdet, if_true]
  rw [Matrix.mul_smul, smul_smul, one_div, inv_mul_cancel₀ h2, one_smul]

lemma bUpdate_invalid (s : State F N M Z Hp Hu) (hhu : 0 < Hu)
    (SP : Matrix (Fin Hp × Fin Z) (Fin 1) F) (x : Matrix (Fin N) (Fin 1) F)
    (u : Matrix (Fin M) (Fin 1) F)
    (hdet : (s.CTHETAᵀ * s.Q * s.CTHETA + s.R).det = 0) :
    bUpdate s hhu SP x u = (false, 0, u) := by
  simp only [bUpdate, Invers_of_eq _ hdet]
  rfl

end Naive

namespace Opt

lemma vReInit_XI_DU_of_ne (s : State F N M Z Hp Hu) (hhu : 0 < Hu)
    (A : Matrix (Fin N) (Fin N) F) (B : Matrix (Fin N) (Fin M) F)
    (C : Matrix (Fin Z) (Fin N) F) (q r sq sr : F)
    (hdet : ((CzForm.CTHETA A B C : Matrix (Fin Hp × Fin Z) (Fin Hu × Fin M) F)ᵀ *
      setDiag q * CzForm.CTHETA A B C + setDiag r).det ≠ 0) :
    (vReInit s hhu A B C q r sq sr).XI_DU =
      firstBlockRow hhu
        (((CzForm.CTHETA A B C : Matrix (Fin Hp × Fin Z) (Fin Hu × Fin M) F)ᵀ *
            setDiag q * CzForm.CTHETA A B C + setDiag r)⁻¹ *
          (CzForm.CTHETA A B C : Matrix (Fin Hp × Fin Z) (Fin Hu × Fin M) F)ᵀ *
            setDiag q) := by
  simp only [vReInit, Invers_of_ne _ hdet, if_true]

lemma vReInit_XI_DU_of_eq (s : State F N M Z Hp Hu) (hhu : 0 < Hu)
    (A : Matrix (Fin N) (Fin N) F) (B : Matrix (Fin N) (Fin M) F)
    (C : Matrix (Fin Z) (Fin N) F) (q r sq sr : F)
    (hdet : ((CzForm.CTHETA A B C : Matrix (Fin Hp × Fin Z) (Fin Hu × Fin M) F)ᵀ *
      setDiag q * CzForm.CTHETA A B C + setDiag r).det = 0) :
    (vReInit s hhu A B C q r sq sr).XI_DU = 0 := by
  simp only [vReInit, Invers_of_eq _ hdet]
  rfl

end Opt

lemma BackSubtitution_solves {n : ℕ} (U : Matrix (Fin n) (Fin n) F)
    (b : Matrix (Fin n) (Fin 1) F) (htri : ∀ i j : Fin n, j < i → U i j = 0)
    (hdiag : ∀ i, U i i ≠ 0) :
    U * (BackSubtitution U b).2 = b := by
  ext i o
  have ho : o = 0 := Subsingleton.elim o 0
  subst ho
  rw [Matrix.mul_apply]
  have hsplit : ∀ j : Fin n,
      U i j * (BackSubtitution U b).2 j 0 =
        (if i < j then U i j * backSolveAux U b n j else 0) +
          (if j = i then U i i * backSolveAux U b n i else 0) := by
    intro j
    rcases lt_trichotomy i j with h | h | h
    · rw [if_pos h, if_neg (ne_of_lt h).symm]
      simp [BackSubtitution]
    · subst h
      rw [if_neg (lt_irrefl i), if_pos rfl]
      simp [BackSubtitution]
    · rw [if_neg (not_lt_of_gt h), if_neg (ne_of_lt h), htri i j h]
      simp
  rw [Finset.sum_congr rfl fun j _ => hsplit j, Finset.sum_add_distrib,
    Finset.sum_ite_eq' Finset.univ i fun _ => U i i * backSolveAux U b n i]
  rw [if_pos (Finset.mem_univ i), backSolveAux_row U b i, mul_comm,
    div_mul_cancel₀ _ (hdiag i)]
  ring


namespace Naive

/-- From a freshly constructed (zero-filled) controller, the naive `vReInit`
produces exactly the closed-form `CTHETA`. -/
lemma vReInit_zero_CTHETA (A : Matrix (Fin N) (Fin N) F) (B : Matrix (Fin N) (Fin M) F)
    (C : Matrix (Fin Z) (Fin N) F) (q r : F) :
    (vReInit (State.zero : State F N M Z Hp Hu) A B C q r).CTHETA = CTHETA A B C :=
  vReInit_CTHETA_of_zero _ A B C q r fun _ _ _ => rfl

/-- Re-running the naive `vReInit` with the same arguments reproduces `CTHETA`:
the rebuilt lower blocks coincide, and the never-written strictly-upper blocks
are carried over unchanged from the first call. -/
lemma vReInit_idem_CTHETA (s : State F N M Z Hp Hu) (A : Matrix (Fin N) (Fin N) F)
    (B : Matrix (Fin N) (Fin M) F) (C : Matrix (Fin Z) (Fin N) F) (q r : F) :
    (vReInit (vReInit s A B C q r) A B C q r).CTHETA = (vReInit s A B C q r).CTHETA := by
  ext rr c
  rw [vReInit_CTHETA_apply]
  by_cases h : (c.1 : ℕ) ≤ (rr.1 : ℕ)
  · rw [if_pos h, vReInit_CTHETA_apply, if_pos h]
  · rw [if_neg h]

end Naive

namespace Inst

lemma sN_CTHETA (rz cm : Fin 1 × Fin 1) : sN.CTHETA rz cm = 1 := by
  obtain ⟨r, z⟩ := rz
  obtain ⟨c, m⟩ := cm
  rw [sN, Naive.vReInit_zero_CTHETA, Naive.naiveCTHETA_apply,
    if_pos (by omega : ((c : ℕ) ≤ (r : ℕ))), Naive.naiveCOMEGA_apply]
  simp [Matrix.mul_apply, Fin.sum_univ_one, Finset.sum_range_succ]

lemma sN_Q (rz cm : Fin 1 × Fin 1) : sN.Q rz cm = 1 := by
  rw [sN]
  simp [Naive.vReInit, setDiag, Matrix.diagonal_apply, Subsingleton.elim rz cm]

lemma sN_R (rz cm : Fin 1 × Fin 1) : sN.R rz cm = 1 := by
  rw [sN]
  simp [Naive.vReInit, setDiag, Matrix.diagonal_apply, Subsingleton.elim rz cm]

lemma HN_apply : HN ((0 : Fin 1), (0 : Fin 1)) ((0 : Fin 1), (0 : Fin 1)) = 2 := by
  rw [HN]
  simp [Matrix.mul_apply, Fintype.sum_prod_type, Fin.sum_univ_one, sN_CTHETA, sN_Q, sN_R]
  norm_num

lemma HN_det : HN.det ≠ 0 := by
  rw [Matrix.det_eq_elem_of_subsingleton _ ((0 : Fin 1), (0 : Fin 1)), HN_apply]
  norm_num

lemma setDiag_zero {ι : Type} [DecidableEq ι] : (setDiag 0 : Matrix ι ι ℚ) = 0 := by
  simp [setDiag]

lemma HO0_det : HO0.det = 0 := by
  rw [HO0, setDiag_zero, Matrix.mul_zero, Matrix.zero_mul, add_zero,
    Matrix.det_zero ⟨((0 : Fin 1), (0 : Fin 1))⟩]

lemma sN0_H_det : (sN0.CTHETAᵀ * sN0.Q * sN0.CTHETA + sN0.R).det = 0 := by
  have hQ : sN0.Q = 0 := by
    rw [sN0]
    exact setDiag_zero
  have hR : sN0.R = 0 := by
    rw [sN0]
    exact setDiag_zero
  rw [hQ, hR, Matrix.mul_zero, Matrix.zero_mul, add_zero,
    Matrix.det_zero ⟨((0 : Fin 1), (0 : Fin 1))⟩]

lemma sL0_flag : sL0.Qtvalid = false :=
  rfl

lemma thetaC6_apply (rc : Fin 2 × Fin 1) (cm : Fin 1 × Fin 1) :
    (CzForm.CTHETA !![1] !![1] !![1] : Matrix (Fin 2 × Fin 1) (Fin 1 × Fin 1) ℚ) rc cm =
      if (rc.1 : ℕ) = 0 then 1 else 2 := by
  obtain ⟨r, z⟩ := rc
  obtain ⟨c, m⟩ := cm
  rw [CzForm.CTHETA_apply, if_pos (by omega), CzForm.COMEGA_apply]
  fin_cases r <;>
    norm_num [Matrix.mul_apply, Fin.sum_univ_succ, Finset.sum_range_succ]

end Inst

/-- Multiplying the first `Hp*Z` columns of the stored (transposed) factor by
the weighted error equals multiplying the full factor by the augmented
right-hand side `[SQ*Err; 0]`: the zero tail contributes nothing. -/
lemma mul_augRHS (Qt : Matrix (Fin (Hp * Z + Hu * M)) (Fin (Hp * Z + Hu * M)) F)
    (w : Matrix (Fin (Hp * Z)) (Fin 1) F) :
    (show Matrix (Fin (Hp * Z + Hu * M)) (Fin (Hp * Z)) F from
      fun i j => Qt i (Fin.castLE (Nat.le_add_right (Hp * Z) (Hu * M)) j)) * w =
      Qt * Ls.augRHS w := by
  funext i o
  rw [Matrix.mul_apply, Matrix.mul_apply, Fin.sum_univ_add]
  have h2 : ∀ j : Fin (Hu * M),
      Qt i (Fin.natAdd (Hp * Z) j) * Ls.augRHS w (Fin.natAdd (Hp * Z) j) o = 0 := by
    intro j
    have hge : ¬ ((Fin.natAdd (Hp * Z) j : Fin (Hp * Z + Hu * M)) : ℕ) < Hp * Z := by
      simp [Fin.natAdd]
    rw [Ls.augRHS, dif_neg hge, mul_zero]
  rw [Finset.sum_eq_zero fun j _ => h2 j, add_zero]
  refine Finset.sum_congr rfl fun j _ => ?_
  have hlt : ((Fin.castAdd (Hu * M) j : Fin (Hp * Z + Hu * M)) : ℕ) < Hp * Z := by
    simp
  rw [Ls.augRHS, dif_pos hlt]
  congr 1

/-- Truncating a sum over `Fin n` to its first `m` indices when the summand
vanishes from index `m` on. -/
lemma sum_truncate {n m : ℕ} (h : m ≤ n) (f : Fin n → F)
    (hf : ∀ i : Fin n, m ≤ (i : ℕ) → f i = 0) :
    ∑ i, f i = ∑ i : Fin m, f (Fin.castLE h i) := by
  have hn : m + (n - m) = n := by omega
  rw [← Fintype.sum_equiv (finCongr hn) (fun i => f (finCongr hn i)) f fun i => rfl]
  rw [Fin.sum_univ_add]
  have hz : ∀ j : Fin (n - m), f (finCongr hn (Fin.natAdd m j)) = 0 := by
    intro j
    refine hf _ ?_
    simp only [finCongr_apply, Fin.coe_cast, Fin.coe_natAdd]
    omega
  rw [Finset.sum_eq_zero fun j _ => hz j, add_zero]
  exact Finset.sum_congr rfl fun j _ => rfl

/-- `vIsiDiagonal` commutes with reindexing along an equivalence. -/
lemma setDiag_submatrix {ι κ : Type} [DecidableEq ι] [DecidableEq κ] (e : κ ≃ ι) (v : F) :
    (setDiag v : Matrix ι ι F).submatrix e e = setDiag v := by
  funext i j
  simp only [setDiag, Matrix.submatrix_apply, Matrix.diagonal_apply,
    EmbeddingLike.apply_eq_iff_eq]

/-- Under the `QRDec` contract, `GammaLeft` factors as `Qtᵀ * R`. -/
lemma IsQRDec.g_eq (G : Matrix (Fin (Hp * Z + Hu * M)) (Fin (Hu * M)) F)
    (Qt : Matrix (Fin (Hp * Z + Hu * M)) (Fin (Hp * Z + Hu * M)) F)
    (RL : Matrix (Fin (Hp * Z + Hu * M)) (Fin (Hu * M)) F)
    (h : IsQRDec G Qt RL) : G = Qtᵀ * RL := by
  calc G = 1 * G := (Matrix.one_mul G).symm
  _ = Qtᵀ * Qt * G := by rw [h.1]
  _ = Qtᵀ * (Qt * G) := Matrix.mul_assoc _ _ _
  _ = Qtᵀ * RL := by rw [h.2.1]

/-- Every row of the triangular factor at a linear index `≥ Hu*M` vanishes: it
lies strictly below every column index. -/
lemma IsQRDec.rows_vanish (G : Matrix (Fin (Hp * Z + Hu * M)) (Fin (Hu * M)) F)
    (Qt : Matrix (Fin (Hp * Z + Hu * M)) (Fin (Hp * Z + Hu * M)) F)
    (RL : Matrix (Fin (Hp * Z + Hu * M)) (Fin (Hu * M)) F)
    (h : IsQRDec G Qt RL) :
    ∀ (i : Fin (Hp * Z + Hu * M)) (j : Fin (Hu * M)), Hu * M ≤ (i : ℕ) → RL i j = 0 :=
  fun i j hi => h.2.2 i j (lt_of_lt_of_le j.2 hi)

/-- The leading `Hu*M × Hu*M` block of the triangular factor is upper
triangular. -/
lemma IsQRDec.r1_triangular (G : Matrix (Fin (Hp * Z + Hu * M)) (Fin (Hu * M)) F)
    (Qt : Matrix (Fin (Hp * Z + Hu * M)) (Fin (Hp * Z + Hu * M)) F)
    (RL : Matrix (Fin (Hp * Z + Hu * M)) (Fin (Hu * M)) F)
    (h : IsQRDec G Qt RL) :
    ∀ a b : Fin (Hu * M), b < a →
      subUpperLeft (Nat.le_add_left (Hu * M) (Hp * Z)) le_rfl RL a b = 0 :=
  fun _a _b hab => h.2.2 _ _ hab

/-- Because its rows `≥ Hu*M` vanish, products against the transposed
triangular factor only see its leading block (column-vector form). -/
lemma RL_transpose_mul (RL : Matrix (Fin (Hp * Z + Hu * M)) (Fin (Hu * M)) F)
    (hz : ∀ (i : Fin (Hp * Z + Hu * M)) (j : Fin (Hu * M)), Hu * M ≤ (i : ℕ) → RL i j = 0)
    (c : Matrix (Fin (Hp * Z + Hu * M)) (Fin 1) F) :
    RLᵀ * c =
      (subUpperLeft (Nat.le_add_left (Hu * M) (Hp * Z)) le_rfl RL)ᵀ *
        firstRows (Nat.le_add_left (Hu * M) (Hp * Z)) c := by
  funext j o
  rw [Matrix.mul_apply, Matrix.mul_apply]
  rw [sum_truncate (Nat.le_add_left (Hu * M) (Hp * Z)) (fun i => RLᵀ j i * c i o)
    (fun i hi => by
      show RLᵀ j i * c i o = 0
      rw [Matrix.transpose_apply, hz i j hi, zero_mul])]
  refine Finset.sum_congr rfl fun i _ => ?_
  simp only [Matrix.transpose_apply]
  rfl

/-- Because its rows `≥ Hu*M` vanish, the Gram matrix of the triangular factor
is the Gram matrix of its leading block. -/
lemma RL_transpose_mul_self (RL : Matrix (Fin (Hp * Z + Hu * M)) (Fin (Hu * M)) F)
    (hz : ∀ (i : Fin (Hp * Z + Hu * M)) (j : Fin (Hu * M)), Hu * M ≤ (i : ℕ) → RL i j = 0) :
    RLᵀ * RL =
      (subUpperLeft (Nat.le_add_left (Hu * M) (Hp * Z)) le_rfl RL)ᵀ *
        subUpperLeft (Nat.le_add_left (Hu * M) (Hp * Z)) le_rfl RL := by
  funext j k
  rw [Matrix.mul_apply, Matrix.mul_apply]
  rw [sum_truncate (Nat.le_add_left (Hu * M) (Hp * Z)) (fun i => RLᵀ j i * RL i k)
    (fun i hi => by
      show RLᵀ j i * RL i k = 0
      rw [Matrix.transpose_apply, hz i j hi, zero_mul])]
  refine Finset.sum_congr rfl fun i _ => ?_
  simp only [Matrix.transpose_apply]
  rfl

/-- Reindexing the product-indexed `H = CTHETAᵀ·Q·CTHETA + R` to linear
indices. -/
lemma H_submatrix (q r : F) (CT : Matrix (Fin Hp × Fin Z) (Fin Hu × Fin M) F) :
    ((CTᵀ * setDiag q * CT + setDiag r).submatrix finProdFinEquiv.symm finProdFinEquiv.symm :
      Matrix (Fin (Hu * M)) (Fin (Hu * M)) F) =
      (CT.submatrix finProdFinEquiv.symm finProdFinEquiv.symm)ᵀ * setDiag q *
        CT.submatrix finProdFinEquiv.symm finProdFinEquiv.symm + setDiag r := by
  have h1 : (CT.submatrix finProdFinEquiv.symm finProdFinEquiv.symm)ᵀ * setDiag q *
      CT.submatrix finProdFinEquiv.symm finProdFinEquiv.symm =
      (CTᵀ * setDiag q * CT).submatrix finProdFinEquiv.symm finProdFinEquiv.symm := by
    conv_lhs => rw [← setDiag_submatrix
      (finProdFinEquiv.symm : Fin (Hp * Z) ≃ (Fin Hp × Fin Z)) q]
    rw [Matrix.transpose_submatrix, Matrix.submatrix_mul_equiv, Matrix.submatrix_mul_equiv]
  rw [h1, ← setDiag_submatrix (finProdFinEquiv.symm : Fin (Hu * M) ≃ (Fin Hu × Fin M)) r]
  rfl

/-- Reindexing the product-indexed right-hand side `CTHETAᵀ·Q·Err` to linear
indices. -/
lemma rhs_submatrix (q : F) (CT : Matrix (Fin Hp × Fin Z) (Fin Hu × Fin M) F)
    (Errp : Matrix (Fin Hp × Fin Z) (Fin 1) F) :
    ((CTᵀ * setDiag q * Errp).submatrix finProdFinEquiv.symm id :
      Matrix (Fin (Hu * M)) (Fin 1) F) =
      (CT.submatrix finProdFinEquiv.symm finProdFinEquiv.symm)ᵀ * setDiag q *
        Errp.submatrix finProdFinEquiv.symm id := by
  conv_rhs => rw [← setDiag_submatrix
    (finProdFinEquiv.symm : Fin (Hp * Z) ≃ (Fin Hp × Fin Z)) q]
  rw [Matrix.transpose_submatrix, Matrix.submatrix_mul_equiv, Matrix.submatrix_mul_equiv]

/-- The Gram matrix of `GammaLeft = [SQ·CTHETA; SR]`: with `sq² = q` and
`sr² = r` it equals the linearly indexed `CTHETAᵀ·Q·CTHETA + R`. -/
lemma gammaLeft_gram (sq sr q r : F) (hq : sq * sq = q) (hr : sr * sr = r)
    (CT : Matrix (Fin Hp × Fin Z) (Fin Hu × Fin M) F) :
    (GammaLeft sq sr CT)ᵀ * GammaLeft sq sr CT =
      (CT.submatrix finProdFinEquiv.symm finProdFinEquiv.symm)ᵀ * setDiag q *
        CT.submatrix finProdFinEquiv.symm finProdFinEquiv.symm + setDiag r := by
  funext j k
  rw [Matrix.add_apply, Matrix.mul_apply, Fin.sum_univ_add]
  have htop : ∀ i : Fin (Hp * Z),
      (GammaLeft sq sr CT)ᵀ j (Fin.castAdd (Hu * M) i) *
        GammaLeft sq sr CT (Fin.castAdd (Hu * M) i) k =
      (CT.submatrix finProdFinEquiv.symm finProdFinEquiv.symm)ᵀ j i * q *
        CT.submatrix finProdFinEquiv.symm finProdFinEquiv.symm i k := by
    intro i
    have hlt : ((Fin.castAdd (Hu * M) i : Fin (Hp * Z + Hu * M)) : ℕ) < Hp * Z := by
      simp only [Fin.coe_castAdd]
      exact i.2
    simp only [Matrix.transpose_apply, GammaLeft]
    rw [dif_pos hlt, dif_pos hlt]
    have hidx : (⟨((Fin.castAdd (Hu * M) i : Fin (Hp * Z + Hu * M)) : ℕ), hlt⟩ :
        Fin (Hp * Z)) = i := Fin.ext (by simp only [Fin.coe_castAdd])
    rw [hidx, setDiag, Matrix.diagonal_mul, Matrix.diagonal_mul]
    simp only [Matrix.transpose_apply, Matrix.submatrix_apply]
    rw [← hq]
    ring
  have hbot : ∀ i : Fin (Hu * M),
      (GammaLeft sq sr CT)ᵀ j (Fin.natAdd (Hp * Z) i) *
        GammaLeft sq sr CT (Fin.natAdd (Hp * Z) i) k =
      if i = j then (if i = k then r else 0) else 0 := by
    intro i
    have hge : ¬ ((Fin.natAdd (Hp * Z) i : Fin (Hp * Z + Hu * M)) : ℕ) < Hp * Z := by
      simp only [Fin.coe_natAdd]
      omega
    simp only [Matrix.transpose_apply, GammaLeft]
    rw [dif_neg hge, dif_neg hge]
    have hidx : ∀ hpf, (⟨((Fin.natAdd (Hp * Z) i : Fin (Hp * Z + Hu * M)) : ℕ) - Hp * Z,
        hpf⟩ : Fin (Hu * M)) = i :=
      fun hpf => Fin.ext (by simp only [Fin.coe_natAdd]; omega)
    rw [hidx _, setDiag, Matrix.diagonal_apply, Matrix.diagonal_apply]
    simp only [EmbeddingLike.apply_eq_iff_eq]
    by_cases hij : i = j
    · subst hij
      by_cases hik : i = k
      · subst hik
        simp only [if_pos rfl]
        exact hr
      · simp only [if_pos rfl, if_neg hik, mul_zero, ite_self]
    · simp only [if_neg hij, zero_mul]
  rw [Finset.sum_congr rfl fun i _ => htop i, Finset.sum_congr rfl fun i _ => hbot i,
    Finset.sum_ite_eq' Finset.univ j fun i => if i = k then r else 0,
    if_pos (Finset.mem_univ j)]
  congr 1
  rw [Matrix.mul_apply]
  refine Finset.sum_congr rfl fun i _ => ?_
  rw [setDiag, Matrix.mul_diagonal]

/-- `GammaLeftᵀ` applied to the augmented weighted error `[SQ·Err; 0]` equals
the linearly indexed `CTHETAᵀ·Q·Err`: the top rows contribute `sq²·CTHETAᵀ·Err`
and the zero tail annihilates the `SR` rows. -/
lemma gammaLeft_transpose_mul_augRHS (sq sr q : F) (hq : sq * sq = q)
    (CT : Matrix (Fin Hp × Fin Z) (Fin Hu × Fin M) F)
    (Errp : Matrix (Fin Hp × Fin Z) (Fin 1) F) :
    (GammaLeft sq sr CT)ᵀ *
        Ls.augRHS (((setDiag sq : Matrix (Fin Hp × Fin Z) (Fin Hp × Fin Z) F) *
          Errp).submatrix finProdFinEquiv.symm id) =
      (CT.submatrix finProdFinEquiv.symm finProdFinEquiv.symm)ᵀ * setDiag q *
        Errp.submatrix finProdFinEquiv.symm id := by
  funext j o
  rw [Matrix.mul_apply, Fin.sum_univ_add]
  have hbot : ∀ i : Fin (Hu * M),
      (GammaLeft sq sr CT)ᵀ j (Fin.natAdd (Hp * Z) i) *
        Ls.augRHS (((setDiag sq : Matrix (Fin Hp × Fin Z) (Fin Hp × Fin Z) F) *
          Errp).submatrix finProdFinEquiv.symm id) (Fin.natAdd (Hp * Z) i) o = 0 := by
    intro i
    have hge : ¬ ((Fin.natAdd (Hp * Z) i : Fin (Hp * Z + Hu * M)) : ℕ) < Hp * Z := by
      simp only [Fin.coe_natAdd]
      omega
    rw [Ls.augRHS, dif_neg hge, mul_zero]
  rw [Finset.sum_eq_zero fun i _ => hbot i, add_zero]
  have htop : ∀ i : Fin (Hp * Z),
      (GammaLeft sq sr CT)ᵀ j (Fin.castAdd (Hu * M) i) *
        Ls.augRHS (((setDiag sq : Matrix (Fin Hp × Fin Z) (Fin Hp × Fin Z) F) *
          Errp).submatrix finProdFinEquiv.symm id) (Fin.castAdd (Hu * M) i) o =
      (CT.submatrix finProdFinEquiv.symm finProdFinEquiv.symm)ᵀ j i * q *
        Errp.submatrix finProdFinEquiv.symm id i o := by
    intro i
    have hlt : ((Fin.castAdd (Hu * M) i : Fin (Hp * Z + Hu * M)) : ℕ) < Hp * Z := by
      simp only [Fin.coe_castAdd]
      exact i.2
    simp only [Matrix.transpose_apply, GammaLeft, Ls.augRHS]
    rw [dif_pos hlt, dif_pos hlt]
    have hidx : (⟨((Fin.castAdd (Hu * M) i : Fin (Hp * Z + Hu * M)) : ℕ), hlt⟩ :
        Fin (Hp * Z)) = i := Fin.ext (by simp only [Fin.coe_castAdd])
    rw [hidx, setDiag, Matrix.diagonal_mul]
    simp only [Matrix.submatrix_apply, Matrix.diagonal_mul, Matrix.transpose_apply, id_eq]
    rw [← hq]
    ring
  rw [Finset.sum_congr rfl fun i _ => htop i, Matrix.mul_apply]
  refine Finset.sum_congr rfl fun i _ => ?_
  rw [setDiag, Matrix.mul_diagonal]

set_option maxHeartbeats 1000000 in
/-- The mathematical core of the policy equivalence: under the `QRDec` contract
for `GammaLeft` and a nonsingular `H`, the back-substituted least-squares
solution of the `mpc_opt_engl` `bUpdate` equals the linearly reindexed
`H⁻¹·CTHETAᵀ·Q·Err` of the naive `bUpdate`. -/
lemma lsSolve_eq_inv (sq sr q r : F) (hq : sq * sq = q) (hr : sr * sr = r)
    (CT : Matrix (Fin Hp × Fin Z) (Fin Hu × Fin M) F)
    (Qt : Matrix (Fin (Hp * Z + Hu * M)) (Fin (Hp * Z + Hu * M)) F)
    (RL : Matrix (Fin (Hp * Z + Hu * M)) (Fin (Hu * M)) F)
    (hqr : IsQRDec (GammaLeft sq sr CT) Qt RL)
    (hdet : (CTᵀ * setDiag q * CT + setDiag r).det ≠ 0)
    (Errp : Matrix (Fin Hp × Fin Z) (Fin 1) F) :
    (BackSubtitution (subUpperLeft (Nat.le_add_left (Hu * M) (Hp * Z)) le_rfl RL)
        (firstRows (Nat.le_add_left (Hu * M) (Hp * Z))
          (Qt * Ls.augRHS (((setDiag sq : Matrix (Fin Hp × Fin Z) (Fin Hp × Fin Z) F) *
            Errp).submatrix finProdFinEquiv.symm id)))).2 =
      ((CTᵀ * setDiag q * CT + setDiag r)⁻¹ * (CTᵀ * setDiag q * Errp) :
        Matrix (Fin Hu × Fin M) (Fin 1) F).submatrix finProdFinEquiv.symm id := by
  set R1 := subUpperLeft (Nat.le_add_left (Hu * M) (Hp * Z)) le_rfl RL with hR1
  set bvec := firstRows (Nat.le_add_left (Hu * M) (Hp * Z))
    (Qt * Ls.augRHS (((setDiag sq : Matrix (Fin Hp × Fin Z) (Fin Hp × Fin Z) F) *
      Errp).submatrix finProdFinEquiv.symm id)) with hbvec
  have hz := IsQRDec.rows_vanish _ _ _ hqr
  have htri : ∀ a b : Fin (Hu * M), b < a → R1 a b = 0 := by
    rw [hR1]
    exact IsQRDec.r1_triangular _ _ _ hqr
  have hG : GammaLeft sq sr CT = Qtᵀ * RL := IsQRDec.g_eq _ _ _ hqr
  have hQQ : Qt * Qtᵀ = 1 := Matrix.mul_eq_one_comm.mp hqr.1
  have hGram : R1ᵀ * R1 =
      (CTᵀ * setDiag q * CT + setDiag r).submatrix finProdFinEquiv.symm
        finProdFinEquiv.symm := by
    have h2 : (GammaLeft sq sr CT)ᵀ * GammaLeft sq sr CT = R1ᵀ * R1 := by
      rw [hG, Matrix.transpose_mul, Matrix.transpose_transpose, Matrix.mul_assoc,
        ← Matrix.mul_assoc Qt Qtᵀ RL, hQQ, Matrix.one_mul, hR1]
      exact RL_transpose_mul_self RL hz
    rw [← h2, gammaLeft_gram sq sr q r hq hr CT]
    exact (H_submatrix q r CT).symm
  have hdetHl : ((CTᵀ * setDiag q * CT + setDiag r).submatrix
      (finProdFinEquiv.symm : Fin (Hu * M) ≃ (Fin Hu × Fin M))
      finProdFinEquiv.symm).det ≠ 0 := by
    rw [Matrix.det_submatrix_equiv_self]
    exact hdet
  have hdetR1 : R1.det ≠ 0 := by
    intro h0
    rw [← hGram, Matrix.det_mul, Matrix.det_transpose, h0, mul_zero] at hdetHl
    exact hdetHl rfl
  have hdiag : ∀ a, R1 a a ≠ 0 := by
    have hdetProd : R1.det = ∏ a, R1 a a :=
      Matrix.det_of_upperTriangular fun a b hab => htri a b hab
    intro a
    have hne := hdetR1
    rw [hdetProd] at hne
    exact Finset.prod_ne_zero_iff.mp hne a (Finset.mem_univ a)
  have hsolve : R1 * (BackSubtitution R1 bvec).2 = bvec :=
    BackSubtitution_solves R1 bvec htri hdiag
  have hRb : R1ᵀ * bvec =
      (CT.submatrix finProdFinEquiv.symm finProdFinEquiv.symm)ᵀ * setDiag q *
        Errp.submatrix finProdFinEquiv.symm id := by
    rw [hbvec, hR1, ← RL_transpose_mul RL hz, ← Matrix.mul_assoc]
    have hRQ : RLᵀ * Qt = (GammaLeft sq sr CT)ᵀ := by
      rw [hG, Matrix.transpose_mul, Matrix.transpose_transpose]
    rw [hRQ]
    exact gammaLeft_transpose_mul_augRHS sq sr q hq CT Errp
  have hRHS : (CTᵀ * setDiag q * CT + setDiag r).submatrix finProdFinEquiv.symm
        finProdFinEquiv.symm *
      (((CTᵀ * setDiag q * CT + setDiag r)⁻¹ * (CTᵀ * setDiag q * Errp) :
        Matrix (Fin Hu × Fin M) (Fin 1) F).submatrix finProdFinEquiv.symm id) =
      (CT.submatrix finProdFinEquiv.symm finProdFinEquiv.symm)ᵀ * setDiag q *
        Errp.submatrix finProdFinEquiv.symm id := by
    rw [Matrix.submatrix_mul_equiv,
      Matrix.mul_nonsing_inv_cancel_left _ _ (isUnit_iff_ne_zero.mpr hdet)]
    exact rhs_submatrix q CT Errp
  have hLHS : (CTᵀ * setDiag q * CT + setDiag r).submatrix finProdFinEquiv.symm
        finProdFinEquiv.symm * (BackSubtitution R1 bvec).2 =
      (CT.submatrix finProdFinEquiv.symm finProdFinEquiv.symm)ᵀ * setDiag q *
        Errp.submatrix finProdFinEquiv.symm id := by
    rw [← hGram, Matrix.mul_assoc, hsolve]
    exact hRb
  have hunit : IsUnit ((CTᵀ * setDiag q * CT + setDiag r).submatrix
      (finProdFinEquiv.symm : Fin (Hu * M) ≃ (Fin Hu × Fin M))
      finProdFinEquiv.symm).det := isUnit_iff_ne_zero.mpr hdetHl
  calc (BackSubtitution R1 bvec).2
      = ((CTᵀ * setDiag q * CT + setDiag r).submatrix finProdFinEquiv.symm
          finProdFinEquiv.symm)⁻¹ *
        ((CTᵀ * setDiag q * CT + setDiag r).submatrix finProdFinEquiv.symm
          finProdFinEquiv.symm * (BackSubtitution R1 bvec).2) :=
      (Matrix.nonsing_inv_mul_cancel_left _ _ hunit).symm
  _ = ((CTᵀ * setDiag q * CT + setDiag r).submatrix finProdFinEquiv.symm
          finProdFinEquiv.symm)⁻¹ *
        ((CTᵀ * setDiag q * CT + setDiag r).submatrix finProdFinEquiv.symm
          finProdFinEquiv.symm *
          (((CTᵀ * setDiag q * CT + setDiag r)⁻¹ * (CTᵀ * setDiag q * Errp) :
            Matrix (Fin Hu × Fin M) (Fin 1) F).submatrix finProdFinEquiv.symm id)) := by
      rw [hLHS, ← hRHS]
  _ = ((CTᵀ * setDiag q * CT + setDiag r)⁻¹ * (CTᵀ * setDiag q * Errp) :
        Matrix (Fin Hu × Fin M) (Fin 1) F).submatrix finProdFinEquiv.symm id :=
      Matrix.nonsing_inv_mul_cancel_left _ _ hunit

/-- The first `M` linear rows of a `Fin Hu × Fin M` indexed stack are the rows
`(0, m)`: the row-major encoding sends `m < M` to block row `0`, offset `m`. -/
lemma finProdFinEquiv_symm_castLE (hhu : 0 < Hu) (m : Fin M) :
    (finProdFinEquiv.symm (Fin.castLE (Nat.le_mul_of_pos_left M hhu) m) :
      Fin Hu × Fin M) = (⟨0, hhu⟩, m) := by
  have hm : (m : ℕ) < M := m.2
  rw [Prod.ext_iff]
  constructor
  · apply Fin.ext
    simp [finProdFinEquiv, Fin.divNat, Nat.div_eq_of_lt hm]
  · apply Fin.ext
    simp [finProdFinEquiv, Fin.modNat, Nat.mod_eq_of_lt hm]

/-- Taking the first `M` linear rows after reindexing is taking block row `0`
before it. -/
lemma firstRows_submatrix (hhu : 0 < Hu) (X : Matrix (Fin Hu × Fin M) (Fin 1) F) :
    firstRows (Nat.le_mul_of_pos_left M hhu)
      (X.submatrix (finProdFinEquiv.symm :
        Fin (Hu * M) ≃ (Fin Hu × Fin M)) id) = firstBlockRow hhu X := by
  funext m o
  simp only [firstRows, firstBlockRow, Matrix.submatrix_apply, id_eq]
  rw [finProdFinEquiv_symm_castLE hhu m]

namespace Inst

/-- The `GammaLeft` of the plant `A = B = C = 1` (`Hp = 2`, `Hu = 1`, `sq = 1`,
`sr = 2`) is the column `[1; 2; 2]`. -/
lemma GC6_eq : GammaLeft 1 2 (CzForm.CTHETA !![1] !![1] !![1] :
      Matrix (Fin 2 × Fin 1) (Fin 1 × Fin 1) ℚ) =
      (Matrix.of fun (i : Fin (2 * 1 + 1 * 1)) (_j : Fin (1 * 1)) =>
        if (i : ℕ) = 0 then (1 : ℚ) else 2) := by
  funext i j
  fin_cases j
  rw [GammaLeft]
  fin_cases i
  · rw [dif_pos (by norm_num)]
    norm_num [setDiag, Matrix.diagonal_one, Matrix.one_apply, finProdFinEquiv,
      Fin.divNat, Fin.modNat, Inst.thetaC6_apply, Matrix.mul_apply,
      Fin.sum_univ_succ, Fintype.sum_prod_type, Prod.mk.injEq, Prod.ext_iff,
      Fin.ext_iff]
  · rw [dif_pos (by norm_num)]
    norm_num [setDiag, Matrix.diagonal_one, Matrix.one_apply, finProdFinEquiv,
      Fin.divNat, Fin.modNat, Inst.thetaC6_apply, Matrix.mul_apply,
      Fin.sum_univ_succ, Fintype.sum_prod_type, Prod.mk.injEq, Prod.ext_iff,
      Fin.ext_iff]
  · rw [dif_neg (by norm_num)]
    norm_num [setDiag, Matrix.diagonal_apply, finProdFinEquiv, Fin.divNat, Fin.modNat]

/-- The stored factorization `(QtC6, RLC6)` satisfies the `QRDec` contract for
the actual `GammaLeft` of the plant `A = B = C = 1` with `sq = 1`, `sr = 2`. -/
lemma qrC6_isQRDec :
    IsQRDec (GammaLeft 1 2 (CzForm.CTHETA !![1] !![1] !![1])) QtC6 RLC6 := by
  have hG := GC6_eq
  refine ⟨?_, ?_, ?_⟩
  · funext i j
    fin_cases i <;> fin_cases j <;>
      norm_num [QtC6, Matrix.mul_apply, Fin.sum_univ_succ, Matrix.one_apply,
        Fin.ext_iff]
  · rw [hG]
    funext i j
    fin_cases i <;> fin_cases j <;>
      norm_num [QtC6, RLC6, Matrix.mul_apply, Fin.sum_univ_succ]
  · intro i j hij
    fin_cases j
    fin_cases i
    · norm_num at hij
    · norm_num [RLC6]
    · norm_num [RLC6]

/-- The `1 × 1` Hessian of the shared configuration: `H = 1² + 2² + 4 = 9`. -/
lemma HC1_eq : (CzForm.CTHETA !![1] !![1] !![1] :
      Matrix (Fin 2 × Fin 1) (Fin 1 × Fin 1) ℚ)ᵀ *
      (setDiag 1 : Matrix (Fin 2 × Fin 1) (Fin 2 × Fin 1) ℚ) *
      (CzForm.CTHETA !![1] !![1] !![1] :
        Matrix (Fin 2 × Fin 1) (Fin 1 × Fin 1) ℚ) +
      (setDiag 4 : Matrix (Fin 1 × Fin 1) (Fin 1 × Fin 1) ℚ) =
      Matrix.of fun _ _ => (9 : ℚ) := by
  funext a b
  obtain ⟨a1, a2⟩ := a
  obtain ⟨b1, b2⟩ := b
  fin_cases a1
  fin_cases a2
  fin_cases b1
  fin_cases b2
  norm_num [Matrix.mul_apply, Fintype.sum_prod_type, Fin.sum_univ_succ, thetaC6_apply,
    setDiag, Matrix.diagonal_apply, Matrix.transpose_apply, Prod.ext_iff, Fin.ext_iff]

lemma HC1_det : ((CzForm.CTHETA !![1] !![1] !![1] :
      Matrix (Fin 2 × Fin 1) (Fin 1 × Fin 1) ℚ)ᵀ *
      (setDiag 1 : Matrix (Fin 2 × Fin 1) (Fin 2 × Fin 1) ℚ) *
      (CzForm.CTHETA !![1] !![1] !![1] :
        Matrix (Fin 2 × Fin 1) (Fin 1 × Fin 1) ℚ) +
      (setDiag 4 : Matrix (Fin 1 × Fin 1) (Fin 1 × Fin 1) ℚ)).det ≠ 0 := by
  rw [HC1_eq, Matrix.det_eq_elem_of_subsingleton _ ((0 : Fin 1), (0 : Fin 1))]
  norm_num

/-- `QtC6` is exactly the Householder reflector for `vC6`: the factorization
held by the program after `QRDec` on the single effective column `[1; 2; 2]`. -/
lemma QtC6_householder : QtC6 = householderReflector vC6 := by
  funext i j
  fin_cases i <;> fin_cases j <;>
    norm_num [QtC6, vC6, householderReflector, Matrix.sub_apply, Matrix.one_apply,
      Matrix.smul_apply, Matrix.of_apply, Fin.sum_univ_succ, Fin.ext_iff]

/-- `vC6` is the textbook reflection vector for the first (and only effective)
column of `GammaLeft`: `v = c - ‖c‖·e₀` with `‖c‖ = 3`. -/
lemma vC6_spec :
    (∀ i : Fin (2 * 1 + 1 * 1), vC6 i =
      GammaLeft 1 2 (CzForm.CTHETA !![1] !![1] !![1]) i 0 -
        (if (i : ℕ) = 0 then 3 else 0)) ∧
    (3 : ℚ) * 3 = ∑ i : Fin (2 * 1 + 1 * 1),
      GammaLeft 1 2 (CzForm.CTHETA !![1] !![1] !![1]) i 0 *
        GammaLeft 1 2 (CzForm.CTHETA !![1] !![1] !![1]) i 0 := by
  rw [GC6_eq]
  constructor
  · intro i
    fin_cases i <;> norm_num [vC6]
  · norm_num [Fin.sum_univ_succ]

/-- Entry formula for the `thetaX` configuration: `CTHETA = [[4,0],[3,4]]` in
block form (diagonal blocks `C·B = 4`, subdiagonal block `C·(B + A·B) = 3`). -/
lemma thetaX_apply (rc cm : Fin 2 × Fin 1) :
    thetaX rc cm =
      if (cm.1 : ℕ) ≤ (rc.1 : ℕ) then (if (rc.1 : ℕ) = (cm.1 : ℕ) then 4 else 3)
      else 0 := by
  obtain ⟨r, z⟩ := rc
  obtain ⟨c, m⟩ := cm
  rw [thetaX, CzForm.CTHETA_apply]
  by_cases h : (c : ℕ) ≤ (r : ℕ)
  · rw [if_pos h, if_pos h, CzForm.COMEGA_apply]
    fin_cases r <;> fin_cases c
    · norm_num [Matrix.mul_apply, Fin.sum_univ_succ, Finset.sum_range_succ,
        Matrix.one_apply, pow_zero, pow_one]
    · norm_num at h
    · norm_num [Matrix.mul_apply, Fin.sum_univ_succ, Finset.sum_range_succ,
        Matrix.one_apply, pow_zero, pow_one]
    · norm_num [Matrix.mul_apply, Fin.sum_univ_succ, Finset.sum_range_succ,
        Matrix.one_apply, pow_zero, pow_one]
  · rw [if_neg h, if_neg h]

/-- The `GammaLeft` of the `thetaX` configuration is
`[[4,0],[3,4],[12,0],[0,12]]`. -/
lemma GX_eq : GammaLeft 1 12 thetaX =
    (!![(4 : ℚ), 0; 3, 4; 12, 0; 0, 12] :
      Matrix (Fin (2 * 1 + 2 * 1)) (Fin (2 * 1)) ℚ) := by
  funext i j
  rw [GammaLeft]
  fin_cases i
  · fin_cases j <;>
      (rw [dif_pos (by norm_num)]
       norm_num [setDiag, Matrix.diagonal_one, Matrix.one_apply, finProdFinEquiv,
         Fin.divNat, Fin.modNat, thetaX_apply, Matrix.mul_apply, Fin.sum_univ_succ,
         Fintype.sum_prod_type, Prod.mk.injEq, Prod.ext_iff, Fin.ext_iff])
  · fin_cases j <;>
      (rw [dif_pos (by norm_num)]
       norm_num [setDiag, Matrix.diagonal_one, Matrix.one_apply, finProdFinEquiv,
         Fin.divNat, Fin.modNat, thetaX_apply, Matrix.mul_apply, Fin.sum_univ_succ,
         Fintype.sum_prod_type, Prod.mk.injEq, Prod.ext_iff, Fin.ext_iff])
  · fin_cases j <;>
      (rw [dif_neg (by norm_num)]
       norm_num [setDiag, Matrix.diagonal_apply, finProdFinEquiv, Fin.divNat,
         Fin.modNat, Prod.ext_iff, Fin.ext_iff])
  · fin_cases j <;>
      (rw [dif_neg (by norm_num)]
       norm_num [setDiag, Matrix.diagonal_apply, finProdFinEquiv, Fin.divNat,
         Fin.modNat, Prod.ext_iff, Fin.ext_iff])

/-- The positive-diagonal Householder factors satisfy the `QRDec` contract for
the actual `GammaLeft` of the `thetaX` configuration. -/
lemma qrXp_isQRDec : IsQRDec (GammaLeft 1 12 thetaX) QtXp RLXp := by
  refine ⟨?_, ?_, ?_⟩
  · funext i j
    fin_cases i <;> fin_cases j <;>
      norm_num [QtXp, Matrix.mul_apply, Fin.sum_univ_succ, Matrix.one_apply,
        Fin.ext_iff]
  · rw [GX_eq]
    funext i j
    fin_cases i <;> fin_cases j <;>
      norm_num [QtXp, RLXp, Matrix.mul_apply, Fin.sum_univ_succ]
  · intro i j
    fin_cases i <;> fin_cases j <;> norm_num [RLXp]

/-- The negative-diagonal Householder factors satisfy the `QRDec` contract for
the actual `GammaLeft` of the `thetaX` configuration. -/
lemma qrXm_isQRDec : IsQRDec (GammaLeft 1 12 thetaX) QtXm RLXm := by
  refine ⟨?_, ?_, ?_⟩
  · funext i j
    fin_cases i <;> fin_cases j <;>
      norm_num [QtXm, Matrix.mul_apply, Fin.sum_univ_succ, Matrix.one_apply,
        Fin.ext_iff]
  · rw [GX_eq]
    funext i j
    fin_cases i <;> fin_cases j <;>
      norm_num [QtXm, RLXm, Matrix.mul_apply, Fin.sum_univ_succ]
  · intro i j
    fin_cases i <;> fin_cases j <;> norm_num [RLXm]

/-- `QtXp` is exactly the product of the two Householder reflectors for `vX2p`
and `vX1p`: the factor held by the program under the positive-diagonal
convention. -/
lemma QtXp_householder : QtXp = householderReflector vX2p * householderReflector vX1p := by
  funext i j
  fin_cases i <;> fin_cases j <;>
    norm_num [QtXp, vX1p, vX2p, householderReflector, Matrix.mul_apply,
      Matrix.sub_apply, Matrix.one_apply, Matrix.smul_apply, Matrix.of_apply,
      Fin.sum_univ_succ, Fin.ext_iff]

/-- `QtXm` is exactly the product of the two Householder reflectors for `vX2m`
and `vX1m`: the factor held by the program under the negative-diagonal
convention. -/
lemma QtXm_householder : QtXm = householderReflector vX2m * householderReflector vX1m := by
  funext i j
  fin_cases i <;> fin_cases j <;>
    norm_num [QtXm, vX1m, vX2m, householderReflector, Matrix.mul_apply,
      Matrix.sub_apply, Matrix.one_apply, Matrix.smul_apply, Matrix.of_apply,
      Fin.sum_univ_succ, Fin.ext_iff]

/-- `vX1p` is the textbook step-1 reflection vector: `v = c₀ - ‖c₀‖·e₀` for the
first column `c₀ = (4,3,12,0)` of `GammaLeft`, `‖c₀‖ = 13`. -/
lemma vX1p_spec :
    (∀ i : Fin (2 * 1 + 2 * 1), vX1p i =
      GammaLeft 1 12 thetaX i 0 - (if (i : ℕ) = 0 then 13 else 0)) ∧
    (13 : ℚ) * 13 =
      ∑ i : Fin (2 * 1 + 2 * 1), GammaLeft 1 12 thetaX i 0 * GammaLeft 1 12 thetaX i 0 := by
  rw [GX_eq]
  constructor
  · intro i
    fin_cases i <;> norm_num [vX1p]
  · norm_num [Fin.sum_univ_succ]

/-- `vX1m` is the step-1 reflection vector of the other sign convention:
`v = c₀ + ‖c₀‖·e₀`. -/
lemma vX1m_spec :
    (∀ i : Fin (2 * 1 + 2 * 1), vX1m i =
      GammaLeft 1 12 thetaX i 0 + (if (i : ℕ) = 0 then 13 else 0)) ∧
    (13 : ℚ) * 13 =
      ∑ i : Fin (2 * 1 + 2 * 1), GammaLeft 1 12 thetaX i 0 * GammaLeft 1 12 thetaX i 0 := by
  rw [GX_eq]
  constructor
  · intro i
    fin_cases i <;> norm_num [vX1m]
  · norm_num [Fin.sum_univ_succ]

/-- `vX2p` is the textbook step-2 reflection vector: the trailing part of the
second column of the intermediate `H₁·GammaLeft`, minus its norm `164/13` at
position `1`. -/
lemma vX2p_spec :
    (∀ i : Fin (2 * 1 + 2 * 1), vX2p i =
      (if (i : ℕ) = 0 then 0 else
        (householderReflector vX1p * GammaLeft 1 12 thetaX) i 1) -
        (if (i : ℕ) = 1 then 164 / 13 else 0)) ∧
    (164 / 13 : ℚ) * (164 / 13) =
      ∑ i : Fin (2 * 1 + 2 * 1),
        (if (i : ℕ) = 0 then 0 else
          (householderReflector vX1p * GammaLeft 1 12 thetaX) i 1) *
          (if (i : ℕ) = 0 then 0 else
            (householderReflector vX1p * GammaLeft 1 12 thetaX) i 1) := by
  rw [GX_eq]
  constructor
  · intro i
    fin_cases i <;>
      norm_num [vX1p, vX2p, householderReflector, Matrix.mul_apply, Matrix.sub_apply,
        Matrix.one_apply, Matrix.smul_apply, Matrix.of_apply, Fin.sum_univ_succ,
        Fin.ext_iff]
  · norm_num [vX1p, householderReflector, Matrix.mul_apply, Matrix.sub_apply,
      Matrix.one_apply, Matrix.smul_apply, Matrix.of_apply, Fin.sum_univ_succ,
      Fin.ext_iff]

/-- `vX2m` is the step-2 reflection vector of the other sign convention: the
trailing part of the second column of its intermediate `H₁·GammaLeft`, plus its
norm `164/13` at position `1`. -/
lemma vX2m_spec :
    (∀ i : Fin (2 * 1 + 2 * 1), vX2m i =
      (if (i : ℕ) = 0 then 0 else
        (householderReflector vX1m * GammaLeft 1 12 thetaX) i 1) +
        (if (i : ℕ) = 1 then 164 / 13 else 0)) ∧
    (164 / 13 : ℚ) * (164 / 13) =
      ∑ i : Fin (2 * 1 + 2 * 1),
        (if (i : ℕ) = 0 then 0 else
          (householderReflector vX1m * GammaLeft 1 12 thetaX) i 1) *
          (if (i : ℕ) = 0 then 0 else
            (householderReflector vX1m * GammaLeft 1 12 thetaX) i 1) := by
  rw [GX_eq]
  constructor
  · intro i
    fin_cases i <;>
      norm_num [vX1m, vX2m, householderReflector, Matrix.mul_apply, Matrix.sub_apply,
        Matrix.one_apply, Matrix.smul_apply, Matrix.of_apply, Fin.sum_univ_succ,
        Fin.ext_iff]
  · norm_num [vX1m, householderReflector, Matrix.mul_apply, Matrix.sub_apply,
      Matrix.one_apply, Matrix.smul_apply, Matrix.of_apply, Fin.sum_univ_succ,
      Fin.ext_iff]

/-- The naive controller `sNX` holds the closed-form `CTHETA` of the `thetaX`
configuration. -/
lemma sNX_CTHETA_eq : sNX.CTHETA = thetaX := by
  rw [sNX, Naive.vReInit_zero_CTHETA, thetaX]
  exact (CzForm.CTHETA_eq_naive _ _ _).symm

lemma sNX_Q : sNX.Q = setDiag 1 :=
  rfl

lemma sNX_R : sNX.R = setDiag 144 :=
  rfl

/-- The `2 × 2` Hessian of the `thetaX` configuration evaluates to
`[[169, 12], [12, 160]]`. -/
lemma HX_eq : thetaXᵀ * (setDiag 1 : Matrix (Fin 2 × Fin 1) (Fin 2 × Fin 1) ℚ) * thetaX +
    (setDiag 144 : Matrix (Fin 2 × Fin 1) (Fin 2 × Fin 1) ℚ) = HXof := by
  funext a b
  obtain ⟨a1, a2⟩ := a
  obtain ⟨b1, b2⟩ := b
  fin_cases a1 <;> fin_cases a2 <;> fin_cases b1 <;> fin_cases b2 <;>
    norm_num [HXof, thetaX_apply, Matrix.mul_apply, Fintype.sum_prod_type,
      Fin.sum_univ_succ, setDiag, Matrix.diagonal_apply, Matrix.transpose_apply,
      Prod.ext_iff, Fin.ext_iff]

lemma HXof_sub : HXof.submatrix (finProdFinEquiv.symm : Fin (2 * 1) ≃ (Fin 2 × Fin 1))
    finProdFinEquiv.symm = !![(169 : ℚ), 12; 12, 160] := by
  funext i j
  fin_cases i <;> fin_cases j <;>
    norm_num [HXof, Matrix.submatrix_apply, finProdFinEquiv, Fin.divNat, Fin.modNat]

/-- `det H = 169·160 - 144 = 26896 ≠ 0`. -/
lemma HXof_det : HXof.det ≠ 0 := by
  rw [← Matrix.det_submatrix_equiv_self
    (finProdFinEquiv.symm : Fin (2 * 1) ≃ (Fin 2 × Fin 1)) HXof, HXof_sub,
    Matrix.det_fin_two_of]
  norm_num

lemma HX_det : (thetaXᵀ * (setDiag 1 : Matrix (Fin 2 × Fin 1) (Fin 2 × Fin 1) ℚ) * thetaX +
    (setDiag 144 : Matrix (Fin 2 × Fin 1) (Fin 2 × Fin 1) ℚ)).det ≠ 0 := by
  rw [HX_eq]
  exact HXof_det

/-- The reduced right-hand side at the setpoint `[0; 1]` is `(3, 4)`. -/
lemma rhsX_eq : thetaXᵀ * (setDiag 1 : Matrix (Fin 2 × Fin 1) (Fin 2 × Fin 1) ℚ) * SPC6 =
    rhsX := by
  funext a b
  obtain ⟨a1, a2⟩ := a
  fin_cases a1 <;> fin_cases a2 <;> fin_cases b <;>
    norm_num [rhsX, SPC6, thetaX_apply, Matrix.mul_apply, Fintype.sum_prod_type,
      Fin.sum_univ_succ, setDiag, Matrix.diagonal_apply, Matrix.transpose_apply,
      Prod.ext_iff, Fin.ext_iff]

/-- `duX` solves the naive normal equations: `H·duX = (3, 4)`. -/
lemma HX_solve : HXof * duX = rhsX := by
  funext a b
  obtain ⟨a1, a2⟩ := a
  fin_cases a1 <;> fin_cases a2 <;> fin_cases b <;>
    norm_num [HXof, duX, rhsX, Matrix.mul_apply, Fintype.sum_prod_type,
      Fin.sum_univ_succ]

lemma HX_inv : HXof⁻¹ * rhsX = duX := by
  rw [← HX_solve, Matrix.nonsing_inv_mul_cancel_left _ _ (isUnit_iff_ne_zero.mpr HXof_det)]

/-- The naive `bUpdate` at the `thetaX` configuration with `SP = [0; 1]`,
`x = 0`, `u = 0`: it succeeds and moves `u` to `27/1681`. -/
lemma naiveX_eval :
    Naive.bUpdate sNX (Nat.succ_pos 1) SPC6 (0 : Matrix (Fin 1) (Fin 1) ℚ)
      (0 : Matrix (Fin 1) (Fin 1) ℚ) =
    (true, duX, !![(27 / 1681 : ℚ)]) := by
  have hdet' : (sNX.CTHETAᵀ * sNX.Q * sNX.CTHETA + sNX.R).det ≠ 0 := by
    rw [sNX_CTHETA_eq, sNX_Q, sNX_R]
    exact HX_det
  have h1 := Naive.bUpdate_valid sNX (Nat.succ_pos 1) SPC6
    (0 : Matrix (Fin 1) (Fin 1) ℚ) (0 : Matrix (Fin 1) (Fin 1) ℚ) hdet'
  rw [sNX_CTHETA_eq, sNX_Q, sNX_R, Matrix.mul_zero, Matrix.mul_zero, sub_zero,
    sub_zero, HX_eq, rhsX_eq, HX_inv] at h1
  have hu : (0 : Matrix (Fin 1) (Fin 1) ℚ) + firstBlockRow (Nat.succ_pos 1) duX =
      !![(27 / 1681 : ℚ)] := by
    funext i j
    fin_cases i
    fin_cases j
    norm_num [firstBlockRow, duX, Matrix.add_apply, Matrix.zero_apply, Matrix.of_apply]
  rw [hu] at h1
  exact h1

/-- The `mpc_least_square_engl` `bUpdate` at `sLXp` (positive-diagonal
Householder factors), `SP = [0; 1]`, `x = 0`, `u = 0`: the stored increment. -/
lemma lsOldXp_du :
    (LsOld.bUpdate sLXp le_rfl (Nat.succ_pos 1) SPC6 (0 : Matrix (Fin 1) (Fin 1) ℚ)
      (0 : Matrix (Fin 1) (Fin 1) ℚ)).2.1 = duOldX := by
  simp only [LsOld.bUpdate, sLXp, Ls.vReInit, qrDecXp]
  norm_num [SPC6, QtXp, RLXp, subUpperLeft, firstRows, BackSubtitution,
    backSolveAux, backSubStep, setDiag, Matrix.diagonal_one, Function.update,
    Matrix.mul_apply, Matrix.submatrix_apply, Fin.sum_univ_succ, finProdFinEquiv,
    Fin.divNat, Fin.modNat, Matrix.one_apply, Matrix.mul_zero, sub_zero, duOldX,
    Prod.ext_iff, Fin.ext_iff]
  funext i j
  fin_cases i <;> fin_cases j <;> norm_num [firstRows, Fin.castLE, QtXp, RLXp]

/-- The `mpc_least_square_engl` `bUpdate` at `sLXp`: the updated control. -/
lemma lsOldXp_u :
    (LsOld.bUpdate sLXp le_rfl (Nat.succ_pos 1) SPC6 (0 : Matrix (Fin 1) (Fin 1) ℚ)
      (0 : Matrix (Fin 1) (Fin 1) ℚ)).2.2 = !![(-972 / 284089 : ℚ)] := by
  simp only [LsOld.bUpdate, sLXp, Ls.vReInit, qrDecXp]
  norm_num [SPC6, QtXp, RLXp, subUpperLeft, firstRows, BackSubtitution,
    backSolveAux, backSubStep, setDiag, Matrix.diagonal_one, Function.update,
    Matrix.mul_apply, Matrix.submatrix_apply, Fin.sum_univ_succ, finProdFinEquiv,
    Fin.divNat, Fin.modNat, Matrix.one_apply, Matrix.mul_zero, sub_zero,
    Prod.ext_iff, Fin.ext_iff]
  funext i j
  fin_cases i; fin_cases j; norm_num [firstRows, Fin.castLE, QtXp, RLXp]

/-- The `mpc_least_square_engl` `bUpdate` at `sLXm` (negative-diagonal
Householder factors): the stored increment is the same. -/
lemma lsOldXm_du :
    (LsOld.bUpdate sLXm le_rfl (Nat.succ_pos 1) SPC6 (0 : Matrix (Fin 1) (Fin 1) ℚ)
      (0 : Matrix (Fin 1) (Fin 1) ℚ)).2.1 = duOldX := by
  simp only [LsOld.bUpdate, sLXm, Ls.vReInit, qrDecXm]
  norm_num [SPC6, QtXm, RLXm, subUpperLeft, firstRows, BackSubtitution,
    backSolveAux, backSubStep, setDiag, Matrix.diagonal_one, Function.update,
    Matrix.mul_apply, Matrix.submatrix_apply, Fin.sum_univ_succ, finProdFinEquiv,
    Fin.divNat, Fin.modNat, Matrix.one_apply, Matrix.mul_zero, sub_zero, duOldX,
    Prod.ext_iff, Fin.ext_iff]
  funext i j
  fin_cases i <;> fin_cases j <;> norm_num [firstRows, Fin.castLE, QtXm, RLXm]

/-- The `mpc_least_square_engl` `bUpdate` at `sLXm`: the updated control. -/
lemma lsOldXm_u :
    (LsOld.bUpdate sLXm le_rfl (Nat.succ_pos 1) SPC6 (0 : Matrix (Fin 1) (Fin 1) ℚ)
      (0 : Matrix (Fin 1) (Fin 1) ℚ)).2.2 = !![(-972 / 284089 : ℚ)] := by
  simp only [LsOld.bUpdate, sLXm, Ls.vReInit, qrDecXm]
  norm_num [SPC6, QtXm, RLXm, subUpperLeft, firstRows, BackSubtitution,
    backSolveAux, backSubStep, setDiag, Matrix.diagonal_one, Function.update,
    Matrix.mul_apply, Matrix.submatrix_apply, Fin.sum_univ_succ, finProdFinEquiv,
    Fin.divNat, Fin.modNat, Matrix.one_apply, Matrix.mul_zero, sub_zero,
    Prod.ext_iff, Fin.ext_iff]
  funext i j
  fin_cases i; fin_cases j; norm_num [firstRows, Fin.castLE, QtXm, RLXm]

/-- The increment described by the claim at `sLXp` (first `Hu*M` rows of the
stored factor applied to the augmented weighted error, then back substitution):
it equals the naive solution reindexed. -/
lemma claimXp_val :
    (BackSubtitution (subUpperLeft (Nat.le_add_left (2 * 1) (2 * 1)) le_rfl sLXp.RL)
      (firstRows (Nat.le_add_left (2 * 1) (2 * 1))
        (sLXp.Qt * Ls.augRHS ((sLXp.SQ * (SPC6 -
            sLXp.CPSI * (0 : Matrix (Fin 1) (Fin 1) ℚ) -
            sLXp.COMEGA * (0 : Matrix (Fin 1) (Fin 1) ℚ))).submatrix
          finProdFinEquiv.symm id)))).2 = duClaimX := by
  simp only [sLXp, Ls.vReInit, qrDecXp]
  norm_num [SPC6, QtXp, RLXp, subUpperLeft, firstRows, BackSubtitution,
    backSolveAux, backSubStep, setDiag, Matrix.diagonal_one, Function.update,
    Ls.augRHS, Matrix.mul_apply, Matrix.submatrix_apply, Fin.sum_univ_succ,
    finProdFinEquiv, Fin.divNat, Fin.modNat, Matrix.one_apply, Matrix.mul_zero,
    sub_zero, duClaimX, Prod.ext_iff, Fin.ext_iff]
  funext i j
  fin_cases i <;> fin_cases j <;> norm_num [firstRows, Fin.castLE, QtXp, RLXp]

/-- The increment described by the claim at `sLXm`: identical (the sign choice
cancels between the stored factor and the stored triangle). -/
lemma claimXm_val :
    (BackSubtitution (subUpperLeft (Nat.le_add_left (2 * 1) (2 * 1)) le_rfl sLXm.RL)
      (firstRows (Nat.le_add_left (2 * 1) (2 * 1))
        (sLXm.Qt * Ls.augRHS ((sLXm.SQ * (SPC6 -
            sLXm.CPSI * (0 : Matrix (Fin 1) (Fin 1) ℚ) -
            sLXm.COMEGA * (0 : Matrix (Fin 1) (Fin 1) ℚ))).submatrix
          finProdFinEquiv.symm id)))).2 = duClaimX := by
  simp only [sLXm, Ls.vReInit, qrDecXm]
  norm_num [SPC6, QtXm, RLXm, subUpperLeft, firstRows, BackSubtitution,
    backSolveAux, backSubStep, setDiag, Matrix.diagonal_one, Function.update,
    Ls.augRHS, Matrix.mul_apply, Matrix.submatrix_apply, Fin.sum_univ_succ,
    finProdFinEquiv, Fin.divNat, Fin.modNat, Matrix.one_apply, Matrix.mul_zero,
    sub_zero, duClaimX, Prod.ext_iff, Fin.ext_iff]
  funext i j
  fin_cases i <;> fin_cases j <;> norm_num [firstRows, Fin.castLE, QtXm, RLXm]

end Inst

/-! ## Claim theorems -/

/-- C7: for every plant `(A, B, C)` and every block row `k` (0-based here, so
the claim's 1-based `k` is `k+1`), the `k`-th row block of the built `CPSI` is
`C * A^(k+1)` and the `k`-th row block of the built `COMEGA` is
`C * ∑_{i=0}^{k} A^i * B`; this holds identically for the `mpc_engl`
construction that folds `C` into each block during accumulation and for the
construction that builds the block-diagonal expansion `Cz` and left-multiplies
the state-space stacks by it. -/
theorem C7_prediction_stacks (A : Matrix (Fin N) (Fin N) F) (B : Matrix (Fin N) (Fin M) F)
    (C : Matrix (Fin Z) (Fin N) F) (k : Fin Hp) (z : Fin Z) (n : Fin N) (m : Fin M) :
    Naive.CPSI A C (k, z) n = (C * A ^ ((k : ℕ) + 1)) z n ∧
      CzForm.CPSI A C (k, z) n = (C * A ^ ((k : ℕ) + 1)) z n ∧
      Naive.COMEGA A B C (k, z) m =
        (C * ∑ i ∈ Finset.range ((k : ℕ) + 1), A ^ i * B) z m ∧
      CzForm.COMEGA A B C (k, z) m =
        (C * ∑ i ∈ Finset.range ((k : ℕ) + 1), A ^ i * B) z m :=
  ⟨Naive.naiveCPSI_apply A C k z n, CzForm.CPSI_apply A C k z n,
    Naive.naiveCOMEGA_apply A B C k z m, CzForm.COMEGA_apply A B C k z m⟩

/-- C8: for every plant and `Hp ≥ Hu`, both built `CTHETA` matrices are
block-Toeplitz: block `(r, c)` (block row `r`, block column `c`, both 0-based;
the block column sits at column offset `c*M` by the row-major encoding of the
column index) equals row block `r - c` of the corresponding `COMEGA` when
`c ≤ r`, and is zero above the block diagonal. -/
theorem C8_ctheta_toeplitz (A : Matrix (Fin N) (Fin N) F) (B : Matrix (Fin N) (Fin M) F)
    (C : Matrix (Fin Z) (Fin N) F) (r : Fin Hp) (z : Fin Z) (c : Fin Hu) (m : Fin M) :
    Naive.CTHETA A B C (r, z) (c, m) =
      (if (c : ℕ) ≤ (r : ℕ) then
        Naive.COMEGA A B C (⟨(r : ℕ) - (c : ℕ), lt_of_le_of_lt (Nat.sub_le _ _) r.2⟩, z) m
      else 0) ∧
    CzForm.CTHETA A B C (r, z) (c, m) =
      (if (c : ℕ) ≤ (r : ℕ) then
        CzForm.COMEGA A B C (⟨(r : ℕ) - (c : ℕ), lt_of_le_of_lt (Nat.sub_le _ _) r.2⟩, z) m
      else 0) :=
  ⟨Naive.naiveCTHETA_apply A B C r z c m, CzForm.CTHETA_apply A B C r z c m⟩

/-- C2: whenever the naive `bUpdate` is called with members for which
`H = CTHETAᵀ·Q·CTHETA + R` is invertible, it returns `true` and overwrites `u`
with `u` plus the first `M` entries of `H⁻¹·CTHETAᵀ·Q·Err`, where
`Err = SP - CPSI·x - COMEGA·u` is formed from the current state and the
previously applied control; the entries of `du` beyond the first `M` are
discarded (only the row block `0` of `du` enters the update of `u`). -/
theorem C2_naive_update (s : Naive.State F N M Z Hp Hu) (hhu : 0 < Hu)
    (SP : Matrix (Fin Hp × Fin Z) (Fin 1) F) (x : Matrix (Fin N) (Fin 1) F)
    (u : Matrix (Fin M) (Fin 1) F)
    (hdet : (s.CTHETAᵀ * s.Q * s.CTHETA + s.R).det ≠ 0) :
    Naive.bUpdate s hhu SP x u =
      (true,
        (s.CTHETAᵀ * s.Q * s.CTHETA + s.R)⁻¹ *
          (s.CTHETAᵀ * s.Q * (SP - s.CPSI * x - s.COMEGA * u)),
        u + firstBlockRow hhu ((s.CTHETAᵀ * s.Q * s.CTHETA + s.R)⁻¹ *
          (s.CTHETAᵀ * s.Q * (SP - s.CPSI * x - s.COMEGA * u)))) :=
  Naive.bUpdate_valid s hhu SP x u hdet

/-- C5: for every argument tuple, the optimized `vReInit` computes
`H = CTHETAᵀ·Q·CTHETA + R` from the freshly built prediction matrices — once,
offline, since `XI_DU` depends only on the arguments — and persists `XI_DU`
equal to the first `M` rows of `H⁻¹·CTHETAᵀ·Q` when the inversion is valid, and
equal to the zero matrix when the inversion is invalid. -/
theorem C5_opt_offline_gain (s : Opt.State F N M Z Hp Hu) (hhu : 0 < Hu)
    (A : Matrix (Fin N) (Fin N) F) (B : Matrix (Fin N) (Fin M) F)
    (C : Matrix (Fin Z) (Fin N) F) (q r sq sr : F) :
    (Opt.vReInit s hhu A B C q r sq sr).XI_DU =
      if ((CzForm.CTHETA A B C : Matrix (Fin Hp × Fin Z) (Fin Hu × Fin M) F)ᵀ *
          setDiag q * CzForm.CTHETA A B C + setDiag r).det ≠ 0 then
        firstBlockRow hhu
          (((CzForm.CTHETA A B C : Matrix (Fin Hp × Fin Z) (Fin Hu × Fin M) F)ᵀ *
              setDiag q * CzForm.CTHETA A B C + setDiag r)⁻¹ *
            (CzForm.CTHETA A B C : Matrix (Fin Hp × Fin Z) (Fin Hu × Fin M) F)ᵀ *
              setDiag q)
      else 0 := by
  split_ifs with h
  · exact Opt.vReInit_XI_DU_of_ne s hhu A B C q r sq sr h
  · exact Opt.vReInit_XI_DU_of_eq s hhu A B C q r sq sr (not_not.mp h)

/-- Witness for C5 at the one-dimensional plant `A = 0`, `B = 1`, `C = 1` with
unit weights. -/
theorem C5_opt_offline_gain_witness :
    0 < 1 ∧
      Inst.sO.XI_DU =
        if Inst.HO.det ≠ 0 then
          firstBlockRow Nat.one_pos (Inst.HO⁻¹ * Inst.thetaOᵀ * setDiag 1)
        else 0 :=
  ⟨Nat.one_pos,
    C5_opt_offline_gain Opt.State.zero Nat.one_pos !![0] !![1] !![1] 1 1 1 1⟩

/-- C3, counterexample: for the optimized policy the claim fails.  With a zero
plant and zero weights the offline inversion of `H` is invalid (`Invers`
reports failure on the very matrix `vReInit` builds), yet the subsequent
`bUpdate` call still returns `true`. -/
theorem C3_counterexample :
    (Invers Inst.HO0).1 = false ∧
      (Opt.bUpdate Inst.sO0 Inst.SP1 !![0] !![0]).1 = true :=
  ⟨by rw [Invers_of_eq _ Inst.HO0_det], rfl⟩

/-- C3 amended: the naive `bUpdate` returns `false` whenever its per-cycle
inversion of `H` is invalid, and both least-squares `bUpdate`s return `false`
whenever the stored factorization is invalid; the optimized `bUpdate`, however,
always returns `true` — a failed offline inversion surfaces only as the zero
gain `XI_DU` (zero increment), not as a boolean failure. -/
theorem C3_amended_return_flags (s : Naive.State F N M Z Hp Hu)
    (sl : Ls.State F N M Z Hp Hu) (so : Opt.State F N M Z Hp Hu)
    (hZM : Hu * M ≤ Hp * Z) (hhu : 0 < Hu)
    (SP : Matrix (Fin Hp × Fin Z) (Fin 1) F) (x : Matrix (Fin N) (Fin 1) F)
    (u : Matrix (Fin M) (Fin 1) F) :
    ((s.CTHETAᵀ * s.Q * s.CTHETA + s.R).det = 0 →
      (Naive.bUpdate s hhu SP x u).1 = false) ∧
    (sl.Qtvalid = false →
      (LsOld.bUpdate sl hZM hhu SP x u).1 = false ∧
        (LsNew.bUpdate sl hhu SP x u).1 = false) ∧
    (Opt.bUpdate so SP x u).1 = true := by
  refine ⟨fun h => ?_, fun h => ⟨?_, ?_⟩, rfl⟩
  · rw [Naive.bUpdate_invalid s hhu SP x u h]
  · simp [LsOld.bUpdate, h]
  · simp [LsNew.bUpdate, h]

/-- Witness for the amended C3 at concrete degenerate one-dimensional
controllers. -/
theorem C3_amended_return_flags_witness :
    (Inst.sN0.CTHETAᵀ * Inst.sN0.Q * Inst.sN0.CTHETA + Inst.sN0.R).det = 0 ∧
      Inst.sL0.Qtvalid = false ∧
      (Naive.bUpdate Inst.sN0 Nat.one_pos Inst.SP1 !![0] !![0]).1 = false ∧
      (LsOld.bUpdate Inst.sL0 le_rfl Nat.one_pos Inst.SP1 !![0] !![0]).1 = false ∧
      (LsNew.bUpdate Inst.sL0 Nat.one_pos Inst.SP1 !![0] !![0]).1 = false ∧
      (Opt.bUpdate Inst.sO0 Inst.SP1 !![0] !![0]).1 = true := by
  obtain ⟨h1, h2, h3⟩ :=
    C3_amended_return_flags Inst.sN0 Inst.sL0 Inst.sO0 le_rfl Nat.one_pos Inst.SP1
      !![0] !![0]
  exact ⟨Inst.sN0_H_det, Inst.sL0_flag, h1 Inst.sN0_H_det, (h2 Inst.sL0_flag).1,
    (h2 Inst.sL0_flag).2, h3⟩

/-- C4: while the consumed artifact is invalid, every policy leaves the
caller's control vector unchanged: the naive `bUpdate` returns before touching
`u` when the per-cycle inverse is invalid; the optimized `bUpdate` adds the
zero increment when `XI_DU` is zero (in particular whenever its `vReInit` hit a
singular `H`); both least-squares `bUpdate`s return before touching `u` when
the stored factors are invalid.  In exact arithmetic no other value — partial
or otherwise — is ever written into `u` in these cases. -/
theorem C4_invalid_leaves_u (s : Naive.State F N M Z Hp Hu)
    (so : Opt.State F N M Z Hp Hu) (sl : Ls.State F N M Z Hp Hu)
    (hZM : Hu * M ≤ Hp * Z) (hhu : 0 < Hu)
    (A : Matrix (Fin N) (Fin N) F) (B : Matrix (Fin N) (Fin M) F)
    (C : Matrix (Fin Z) (Fin N) F) (q r sq sr : F)
    (SP : Matrix (Fin Hp × Fin Z) (Fin 1) F) (x : Matrix (Fin N) (Fin 1) F)
    (u : Matrix (Fin M) (Fin 1) F) :
    ((s.CTHETAᵀ * s.Q * s.CTHETA + s.R).det = 0 →
      (Naive.bUpdate s hhu SP x u).2.2 = u) ∧
    (so.XI_DU = 0 → (Opt.bUpdate so SP x u).2.2 = u) ∧
    (((CzForm.CTHETA A B C : Matrix (Fin Hp × Fin Z) (Fin Hu × Fin M) F)ᵀ *
        setDiag q * CzForm.CTHETA A B C + setDiag r).det = 0 →
      (Opt.bUpdate (Opt.vReInit so hhu A B C q r sq sr) SP x u).2.2 = u) ∧
    (sl.Qtvalid = false →
      (LsOld.bUpdate sl hZM hhu SP x u).2.2 = u ∧
        (LsNew.bUpdate sl hhu SP x u).2.2 = u) := by
  have hopt : ∀ so2 : Opt.State F N M Z Hp Hu, so2.XI_DU = 0 →
      (Opt.bUpdate so2 SP x u).2.2 = u := by
    intro so2 h
    simp [Opt.bUpdate, h]
  refine ⟨fun h => ?_, hopt so, fun h => ?_, fun h => ⟨?_, ?_⟩⟩
  · rw [Naive.bUpdate_invalid s hhu SP x u h]
  · exact hopt _ (Opt.vReInit_XI_DU_of_eq so hhu A B C q r sq sr h)
  · simp [LsOld.bUpdate, h]
  · simp [LsNew.bUpdate, h]

/-- Witness for C4 at concrete degenerate one-dimensional controllers with a
nonzero previous control `u = 5`. -/
theorem C4_invalid_leaves_u_witness :
    (Inst.sN0.CTHETAᵀ * Inst.sN0.Q * Inst.sN0.CTHETA + Inst.sN0.R).det = 0 ∧
      Inst.sL0.Qtvalid = false ∧
      (Naive.bUpdate Inst.sN0 Nat.one_pos Inst.SP1 !![0] !![5]).2.2 = !![5] ∧
      (Opt.bUpdate (Opt.vReInit Inst.sO0 Nat.one_pos !![0] !![0] !![0] 0 0 0 0)
        Inst.SP1 !![0] !![5]).2.2 = !![5] ∧
      (LsOld.bUpdate Inst.sL0 le_rfl Nat.one_pos Inst.SP1 !![0] !![5]).2.2 = !![5] ∧
      (LsNew.bUpdate Inst.sL0 Nat.one_pos Inst.SP1 !![0] !![5]).2.2 = !![5] := by
  obtain ⟨h1, _h2, h3, h4⟩ :=
    C4_invalid_leaves_u Inst.sN0 Inst.sO0 Inst.sL0 le_rfl Nat.one_pos !![0] !![0] !![0]
      0 0 0 0 Inst.SP1 !![0] !![5]
  exact ⟨Inst.sN0_H_det, Inst.sL0_flag, h1 Inst.sN0_H_det, h3 Inst.HO0_det,
    (h4 Inst.sL0_flag).1, (h4 Inst.sL0_flag).2⟩

/-- C9: re-initialization is idempotent and its offline artifacts are
argument-determined.  For the naive policy, calling `vReInit` twice with
identical arguments from any prior state leaves every artifact equal to its
value after the first call, and from any two reachable prior states (whose
strictly-upper `CTHETA` blocks are zero — as holds for a freshly constructed
controller and is preserved by every `vReInit`) the artifacts agree; for the
optimized and least-squares policies every artifact is a function of the
arguments alone (all assembly happens in zero-initialized locals), so
idempotence and argument-determinism hold outright. -/
theorem C9_reinit_idempotent (s t : Naive.State F N M Z Hp Hu)
    (so so2 : Opt.State F N M Z Hp Hu) (sl sl2 : Ls.State F N M Z Hp Hu)
    (hhu : 0 < Hu)
    (qrDec : Matrix (Fin (Hp * Z + Hu * M)) (Fin (Hu * M)) F →
      Bool × Matrix (Fin (Hp * Z + Hu * M)) (Fin (Hp * Z + Hu * M)) F ×
        Matrix (Fin (Hp * Z + Hu * M)) (Fin (Hu * M)) F)
    (A : Matrix (Fin N) (Fin N) F) (B : Matrix (Fin N) (Fin M) F)
    (C : Matrix (Fin Z) (Fin N) F) (q r sq sr : F)
    (hs : ∀ (rr : Fin Hp × Fin Z) (c : Fin Hu × Fin M),
      (rr.1 : ℕ) < (c.1 : ℕ) → s.CTHETA rr c = 0)
    (ht : ∀ (rr : Fin Hp × Fin Z) (c : Fin Hu × Fin M),
      (rr.1 : ℕ) < (c.1 : ℕ) → t.CTHETA rr c = 0) :
    ((Naive.vReInit (Naive.vReInit s A B C q r) A B C q r).CPSI =
        (Naive.vReInit s A B C q r).CPSI ∧
      (Naive.vReInit (Naive.vReInit s A B C q r) A B C q r).COMEGA =
        (Naive.vReInit s A B C q r).COMEGA ∧
      (Naive.vReInit (Naive.vReInit s A B C q r) A B C q r).CTHETA =
        (Naive.vReInit s A B C q r).CTHETA ∧
      (Naive.vReInit (Naive.vReInit s A B C q r) A B C q r).Q =
        (Naive.vReInit s A B C q r).Q ∧
      (Naive.vReInit (Naive.vReInit s A B C q r) A B C q r).R =
        (Naive.vReInit s A B C q r).R) ∧
    ((Naive.vReInit s A B C q r).CPSI = (Naive.vReInit t A B C q r).CPSI ∧
      (Naive.vReInit s A B C q r).COMEGA = (Naive.vReInit t A B C q r).COMEGA ∧
      (Naive.vReInit s A B C q r).CTHETA = (Naive.vReInit t A B C q r).CTHETA) ∧
    ((Opt.vReInit so hhu A B C q r sq sr).CPSI =
        (Opt.vReInit so2 hhu A B C q r sq sr).CPSI ∧
      (Opt.vReInit so hhu A B C q r sq sr).COMEGA =
        (Opt.vReInit so2 hhu A B C q r sq sr).COMEGA ∧
      (Opt.vReInit so hhu A B C q r sq sr).CTHETA =
        (Opt.vReInit so2 hhu A B C q r sq sr).CTHETA ∧
      (Opt.vReInit so hhu A B C q r sq sr).Q = (Opt.vReInit so2 hhu A B C q r sq sr).Q ∧
      (Opt.vReInit so hhu A B C q r sq sr).R = (Opt.vReInit so2 hhu A B C q r sq sr).R ∧
      (Opt.vReInit so hhu A B C q r sq sr).SQ =
        (Opt.vReInit so2 hhu A B C q r sq sr).SQ ∧
      (Opt.vReInit so hhu A B C q r sq sr).SR =
        (Opt.vReInit so2 hhu A B C q r sq sr).SR ∧
      (Opt.vReInit so hhu A B C q r sq sr).XI_DU =
        (Opt.vReInit so2 hhu A B C q r sq sr).XI_DU) ∧
    ((Ls.vReInit qrDec sl A B C sq sr).CPSI = (Ls.vReInit qrDec sl2 A B C sq sr).CPSI ∧
      (Ls.vReInit qrDec sl A B C sq sr).COMEGA =
        (Ls.vReInit qrDec sl2 A B C sq sr).COMEGA ∧
      (Ls.vReInit qrDec sl A B C sq sr).CTHETA =
        (Ls.vReInit qrDec sl2 A B C sq sr).CTHETA ∧
      (Ls.vReInit qrDec sl A B C sq sr).SQ = (Ls.vReInit qrDec sl2 A B C sq sr).SQ ∧
      (Ls.vReInit qrDec sl A B C sq sr).SR = (Ls.vReInit qrDec sl2 A B C sq sr).SR ∧
      (Ls.vReInit qrDec sl A B C sq sr).Qt = (Ls.vReInit qrDec sl2 A B C sq sr).Qt ∧
      (Ls.vReInit qrDec sl A B C sq sr).Qtvalid =
        (Ls.vReInit qrDec sl2 A B C sq sr).Qtvalid ∧
      (Ls.vReInit qrDec sl A B C sq sr).RL = (Ls.vReInit qrDec sl2 A B C sq sr).RL) := by
  refine ⟨⟨?_, ?_, Naive.vReInit_idem_CTHETA s A B C q r, rfl, rfl⟩,
    ⟨?_, ?_, ?_⟩, ⟨rfl, rfl, rfl, rfl, rfl, rfl, rfl, rfl⟩,
    ⟨rfl, rfl, rfl, rfl, rfl, rfl, rfl, rfl⟩⟩
  · rw [Naive.vReInit_CPSI, Naive.vReInit_CPSI]
  · rw [Naive.vReInit_COMEGA, Naive.vReInit_COMEGA]
  · rw [Naive.vReInit_CPSI, Naive.vReInit_CPSI]
  · rw [Naive.vReInit_COMEGA, Naive.vReInit_COMEGA]
  · rw [Naive.vReInit_CTHETA_of_zero s A B C q r hs,
      Naive.vReInit_CTHETA_of_zero t A B C q r ht]

/-- Witness for C9: both naive prior states freshly constructed (zero-filled),
one-dimensional plant. -/
theorem C9_reinit_idempotent_witness :
    (∀ (rr : Fin 1 × Fin 1) (c : Fin 1 × Fin 1),
      (rr.1 : ℕ) < (c.1 : ℕ) →
        (Naive.State.zero : Naive.State ℚ 1 1 1 1 1).CTHETA rr c = 0) ∧
    (Naive.vReInit (Naive.vReInit (Naive.State.zero : Naive.State ℚ 1 1 1 1 1)
        !![0] !![1] !![1] 1 1) !![0] !![1] !![1] 1 1).CTHETA =
      (Naive.vReInit (Naive.State.zero : Naive.State ℚ 1 1 1 1 1)
        !![0] !![1] !![1] 1 1).CTHETA := by
  have hz : ∀ (rr : Fin 1 × Fin 1) (c : Fin 1 × Fin 1),
      (rr.1 : ℕ) < (c.1 : ℕ) →
        (Naive.State.zero : Naive.State ℚ 1 1 1 1 1).CTHETA rr c = 0 :=
    fun _ _ _ => rfl
  exact ⟨hz,
    (C9_reinit_idempotent Naive.State.zero Naive.State.zero Opt.State.zero Opt.State.zero
      Ls.State.zero Ls.State.zero Nat.one_pos Inst.qrDec0 !![0] !![1] !![1] 1 1 1 1 hz
      hz).1.2.2.1⟩

/-- Witness for C2: a concrete one-dimensional configuration with invertible
`H`, obtained from `vReInit` on the plant `A = 0`, `B = 1`, `C = 1` with unit
weights. -/
theorem C2_naive_update_witness :
    Inst.HN.det ≠ 0 ∧
      Naive.bUpdate Inst.sN Nat.one_pos Inst.SP1 !![0] !![0] =
        (true, Inst.HN⁻¹ * Inst.rhsN,
          !![0] + firstBlockRow Nat.one_pos (Inst.HN⁻¹ * Inst.rhsN)) :=
  ⟨Inst.HN_det, C2_naive_update Inst.sN Nat.one_pos Inst.SP1 !![0] !![0] Inst.HN_det⟩

/-- C6, counterexample: at the configuration `A = -1/4`, `B = 1`, `C = 4`,
`Hp = Hu = 2`, `q = 1`, `r = 144` (`sq = 1`, `sr = 12`), the stored factors
`QtXp`/`RLXp` (and `QtXm`/`RLXm` for the other sign convention) form a genuine
QR factorization of `GammaLeft` — `Qt` is the product of the two Householder
reflectors prescribed by the spec, orthogonal, with `Qt*G = RL` upper
triangular — the `mpc_least_square_engl` `bUpdate` reports success, yet its
control increment differs from the claimed one (first `Hp*Z` rows of the
transposed orthogonal factor applied to the weighted error, then back
substitution against the leading block of `R_L`): the code multiplies by the
transpose of the leading `Hp*Z × Hp*Z` block of `Qt`, which is not the first
`Hp*Z` columns of `Qt` here because that block is nonsymmetric. This holds
under both Householder sign conventions. -/
theorem C6_counterexample :
    (IsQRDec (GammaLeft 1 12 Inst.thetaX) Inst.QtXp Inst.RLXp ∧
      Inst.QtXp = householderReflector Inst.vX2p * householderReflector Inst.vX1p ∧
      Inst.sLXp.Qtvalid = true ∧
      (LsOld.bUpdate Inst.sLXp le_rfl (Nat.succ_pos 1) Inst.SPC6
        (0 : Matrix (Fin 1) (Fin 1) ℚ) (0 : Matrix (Fin 1) (Fin 1) ℚ)).1 = true ∧
      (LsOld.bUpdate Inst.sLXp le_rfl (Nat.succ_pos 1) Inst.SPC6
        (0 : Matrix (Fin 1) (Fin 1) ℚ) (0 : Matrix (Fin 1) (Fin 1) ℚ)).2.1 ≠
        (BackSubtitution
          (subUpperLeft (Nat.le_add_left (2 * 1) (2 * 1)) le_rfl Inst.sLXp.RL)
          (firstRows (Nat.le_add_left (2 * 1) (2 * 1))
            (Inst.sLXp.Qt * Ls.augRHS ((Inst.sLXp.SQ * (Inst.SPC6 -
                Inst.sLXp.CPSI * (0 : Matrix (Fin 1) (Fin 1) ℚ) -
                Inst.sLXp.COMEGA * (0 : Matrix (Fin 1) (Fin 1) ℚ))).submatrix
              finProdFinEquiv.symm id)))).2) ∧
    (IsQRDec (GammaLeft 1 12 Inst.thetaX) Inst.QtXm Inst.RLXm ∧
      Inst.QtXm = householderReflector Inst.vX2m * householderReflector Inst.vX1m ∧
      Inst.sLXm.Qtvalid = true ∧
      (LsOld.bUpdate Inst.sLXm le_rfl (Nat.succ_pos 1) Inst.SPC6
        (0 : Matrix (Fin 1) (Fin 1) ℚ) (0 : Matrix (Fin 1) (Fin 1) ℚ)).1 = true ∧
      (LsOld.bUpdate Inst.sLXm le_rfl (Nat.succ_pos 1) Inst.SPC6
        (0 : Matrix (Fin 1) (Fin 1) ℚ) (0 : Matrix (Fin 1) (Fin 1) ℚ)).2.1 ≠
        (BackSubtitution
          (subUpperLeft (Nat.le_add_left (2 * 1) (2 * 1)) le_rfl Inst.sLXm.RL)
          (firstRows (Nat.le_add_left (2 * 1) (2 * 1))
            (Inst.sLXm.Qt * Ls.augRHS ((Inst.sLXm.SQ * (Inst.SPC6 -
                Inst.sLXm.CPSI * (0 : Matrix (Fin 1) (Fin 1) ℚ) -
                Inst.sLXm.COMEGA * (0 : Matrix (Fin 1) (Fin 1) ℚ))).submatrix
              finProdFinEquiv.symm id)))).2) := by
  refine ⟨⟨Inst.qrXp_isQRDec, Inst.QtXp_householder, rfl, rfl, ?_⟩,
    ⟨Inst.qrXm_isQRDec, Inst.QtXm_householder, rfl, rfl, ?_⟩⟩
  · intro h
    rw [Inst.lsOldXp_du, Inst.claimXp_val] at h
    have h0 := congrFun (congrFun h 0) 0
    norm_num [Inst.duOldX, Inst.duClaimX] at h0
  · intro h
    rw [Inst.lsOldXm_du, Inst.claimXm_val] at h
    have h0 := congrFun (congrFun h 0) 0
    norm_num [Inst.duOldX, Inst.duClaimX] at h0

/-- C6 amended: for the least-squares `bUpdate` in `mpc_opt_engl` the claim
holds as stated: with valid stored factors, `du` is obtained by applying the
stored transposed orthogonal factor to the augmented weighted error `[SQ*Err; 0]`
(the zero tail contributing nothing, so only the first `Hp*Z` columns act),
keeping the first `Hu*M` rows, and back-substituting against the leading
`Hu*M × Hu*M` block of the stored triangular factor; `u` is advanced by the
first `M` entries of that `du`. -/
theorem C6_amended_lsnew (s : Ls.State F N M Z Hp Hu) (hhu : 0 < Hu)
    (SP : Matrix (Fin Hp × Fin Z) (Fin 1) F) (x : Matrix (Fin N) (Fin 1) F)
    (u : Matrix (Fin M) (Fin 1) F) (hval : s.Qtvalid = true) :
    LsNew.bUpdate s hhu SP x u =
      (true,
        (BackSubtitution (subUpperLeft (Nat.le_add_left (Hu * M) (Hp * Z)) le_rfl s.RL)
          (firstRows (Nat.le_add_left (Hu * M) (Hp * Z))
            (s.Qt * Ls.augRHS ((s.SQ * (SP - s.CPSI * x - s.COMEGA * u)).submatrix
              finProdFinEquiv.symm id)))).2,
        u + firstRows (Nat.le_mul_of_pos_left M hhu)
          (BackSubtitution (subUpperLeft (Nat.le_add_left (Hu * M) (Hp * Z)) le_rfl s.RL)
            (firstRows (Nat.le_add_left (Hu * M) (Hp * Z))
              (s.Qt * Ls.augRHS ((s.SQ * (SP - s.CPSI * x - s.COMEGA * u)).submatrix
                finProdFinEquiv.symm id)))).2) := by
  simp only [LsNew.bUpdate, hval, if_true]
  rw [mul_augRHS]

/-- Witness for the amended C6 at the concrete state `sLC6`. -/
theorem C6_amended_lsnew_witness :
    (0 < 1 ∧ Inst.sLC6.Qtvalid = true) ∧
      LsNew.bUpdate Inst.sLC6 Nat.one_pos Inst.SPC6 (!![0] : Matrix (Fin 1) (Fin 1) ℚ) (!![0] : Matrix (Fin 1) (Fin 1) ℚ) =
        (true,
          (BackSubtitution
            (subUpperLeft (Nat.le_add_left (1 * 1) (2 * 1)) le_rfl Inst.sLC6.RL)
            (firstRows (Nat.le_add_left (1 * 1) (2 * 1))
              (Inst.sLC6.Qt * Ls.augRHS
                ((Inst.sLC6.SQ * (Inst.SPC6 - Inst.sLC6.CPSI * (!![0] : Matrix (Fin 1) (Fin 1) ℚ) -
                    Inst.sLC6.COMEGA * (!![0] : Matrix (Fin 1) (Fin 1) ℚ))).submatrix finProdFinEquiv.symm id)))).2,
          (!![0] : Matrix (Fin 1) (Fin 1) ℚ) + firstRows (Nat.le_mul_of_pos_left 1 Nat.one_pos)
            (BackSubtitution
              (subUpperLeft (Nat.le_add_left (1 * 1) (2 * 1)) le_rfl Inst.sLC6.RL)
              (firstRows (Nat.le_add_left (1 * 1) (2 * 1))
                (Inst.sLC6.Qt * Ls.augRHS
                  ((Inst.sLC6.SQ * (Inst.SPC6 - Inst.sLC6.CPSI * (!![0] : Matrix (Fin 1) (Fin 1) ℚ) -
                      Inst.sLC6.COMEGA * (!![0] : Matrix (Fin 1) (Fin 1) ℚ))).submatrix
                    finProdFinEquiv.symm id)))).2) :=
  ⟨⟨Nat.one_pos, rfl⟩,
    C6_amended_lsnew Inst.sLC6 Nat.one_pos Inst.SPC6 (!![0] : Matrix (Fin 1) (Fin 1) ℚ) (!![0] : Matrix (Fin 1) (Fin 1) ℚ) rfl⟩

/-- C10: the boolean returned by the `mpc_least_square_engl` `bUpdate` depends
only on the validity flag of the stored orthogonal factor.  Moreover there is a
concrete state whose stored factor is flagged valid while the leading
`Hu*M × Hu*M` block of the stored triangular factor has a zero diagonal entry:
the back substitution on that block is invalid (its validity bit is `false`
for every right-hand side), yet `bUpdate` returns `true` and overwrites the
control `u = 0` with the value `1` produced by the unchecked solve. -/
theorem C10_lsold_flag_only (s : Ls.State F N M Z Hp Hu) (hZM : Hu * M ≤ Hp * Z)
    (hhu : 0 < Hu) (SP : Matrix (Fin Hp × Fin Z) (Fin 1) F)
    (x : Matrix (Fin N) (Fin 1) F) (u : Matrix (Fin M) (Fin 1) F) :
    (LsOld.bUpdate s hZM hhu SP x u).1 = s.Qtvalid ∧
    Inst.sLC10.Qtvalid = true ∧
    (∀ b, (BackSubtitution
      (subUpperLeft (Nat.le_add_left (2 * 1) (2 * 1)) le_rfl Inst.sLC10.RL) b).1 =
        false) ∧
    (LsOld.bUpdate Inst.sLC10 le_rfl (Nat.succ_pos 1) Inst.SPC10 !![0] !![0]).1 =
      true ∧
    (LsOld.bUpdate Inst.sLC10 le_rfl (Nat.succ_pos 1) Inst.SPC10 !![0] !![0]).2.2 =
      !![1] := by
  refine ⟨?_, rfl, ?_, rfl, ?_⟩
  · by_cases h : s.Qtvalid <;> simp [LsOld.bUpdate, h]
  · intro b
    rw [BackSubtitution]
    simp only [decide_eq_false_iff_not]
    intro hcon
    refine hcon 1 ?_
    norm_num [subUpperLeft, Inst.sLC10, Inst.RLC10, Fin.castLE]
  · simp only [LsOld.bUpdate, Inst.sLC10]
    norm_num [Inst.SPC10, Inst.RLC10, subUpperLeft, firstRows, BackSubtitution,
      backSolveAux, backSubStep, setDiag, Matrix.diagonal_one, Function.update,
      Matrix.mul_apply, Matrix.submatrix_apply, Fin.sum_univ_succ, finProdFinEquiv,
      Fin.divNat, Fin.modNat, Matrix.one_apply]
    funext i j
    fin_cases i
    fin_cases j
    norm_num [firstRows, Matrix.add_apply, Fin.castLE]

/-- Witness for C10 at a concrete one-dimensional least-squares state. -/
theorem C10_lsold_flag_only_witness :
    ((2 * 1 : ℕ) ≤ 2 * 1 ∧ 0 < 2) ∧
      (LsOld.bUpdate Inst.sLC10 le_rfl (Nat.succ_pos 1) Inst.SPC10 !![0] !![0]).1 =
        Inst.sLC10.Qtvalid :=
  ⟨⟨le_rfl, Nat.succ_pos 1⟩,
    (C10_lsold_flag_only Inst.sLC10 le_rfl (Nat.succ_pos 1) Inst.SPC10 !![0]
      !![0]).1⟩

/-- C1, counterexample: at the configuration `A = -1/4`, `B = 1`, `C = 4`,
`Hp = Hu = 2`, `weightQ = 1`, `weightR = 144`, with input `SP = [0; 1]`,
`x = 0`, `u = 0`, the naive and least-squares `bUpdate` implementations both
report success yet update the control differently: the naive policy moves `u`
to `27/1681` while `mpc_least_square_engl` moves it to `-972/284089`. The
stored factors are certified reachable: `Qt` is the product of the two
Householder reflectors the spec's `QRDec` builds on `GammaLeft` (under either
sign convention), orthogonal, with `Qt*GammaLeft` the stored upper triangle.
So the policies do not agree in exact arithmetic. -/
theorem C1_counterexample :
    (IsQRDec (GammaLeft 1 12 Inst.thetaX) Inst.QtXp Inst.RLXp ∧
      Inst.QtXp = householderReflector Inst.vX2p * householderReflector Inst.vX1p ∧
      (Naive.bUpdate Inst.sNX (Nat.succ_pos 1) Inst.SPC6
        (0 : Matrix (Fin 1) (Fin 1) ℚ) (0 : Matrix (Fin 1) (Fin 1) ℚ)).1 = true ∧
      (LsOld.bUpdate Inst.sLXp le_rfl (Nat.succ_pos 1) Inst.SPC6
        (0 : Matrix (Fin 1) (Fin 1) ℚ) (0 : Matrix (Fin 1) (Fin 1) ℚ)).1 = true ∧
      (Naive.bUpdate Inst.sNX (Nat.succ_pos 1) Inst.SPC6
        (0 : Matrix (Fin 1) (Fin 1) ℚ) (0 : Matrix (Fin 1) (Fin 1) ℚ)).2.2 ≠
        (LsOld.bUpdate Inst.sLXp le_rfl (Nat.succ_pos 1) Inst.SPC6
          (0 : Matrix (Fin 1) (Fin 1) ℚ) (0 : Matrix (Fin 1) (Fin 1) ℚ)).2.2) ∧
    (IsQRDec (GammaLeft 1 12 Inst.thetaX) Inst.QtXm Inst.RLXm ∧
      Inst.QtXm = householderReflector Inst.vX2m * householderReflector Inst.vX1m ∧
      (LsOld.bUpdate Inst.sLXm le_rfl (Nat.succ_pos 1) Inst.SPC6
        (0 : Matrix (Fin 1) (Fin 1) ℚ) (0 : Matrix (Fin 1) (Fin 1) ℚ)).1 = true ∧
      (Naive.bUpdate Inst.sNX (Nat.succ_pos 1) Inst.SPC6
        (0 : Matrix (Fin 1) (Fin 1) ℚ) (0 : Matrix (Fin 1) (Fin 1) ℚ)).2.2 ≠
        (LsOld.bUpdate Inst.sLXm le_rfl (Nat.succ_pos 1) Inst.SPC6
          (0 : Matrix (Fin 1) (Fin 1) ℚ) (0 : Matrix (Fin 1) (Fin 1) ℚ)).2.2) := by
  refine ⟨⟨Inst.qrXp_isQRDec, Inst.QtXp_householder, ?_, rfl, ?_⟩,
    ⟨Inst.qrXm_isQRDec, Inst.QtXm_householder, rfl, ?_⟩⟩
  · rw [Inst.naiveX_eval]
  · intro h
    rw [Inst.naiveX_eval, Inst.lsOldXp_u] at h
    have h0 := congrFun (congrFun h 0) 0
    norm_num at h0
  · intro h
    rw [Inst.naiveX_eval, Inst.lsOldXm_u] at h
    have h0 := congrFun (congrFun h 0) 0
    norm_num at h0

/-- C1 amended: under well-conditioning — nonsingular `H`, a stored
factorization that is flagged valid and satisfies the `QRDec` contract, and
square roots consistent with the weights — the naive, the optimized and the
least-squares `bUpdate` contained in `mpc_opt_engl` produce the same control
increment `du` (the least-squares one carrying it on linear indices) and the
same updated control `u` from identical configurations and identical per-cycle
inputs `(SP, x, u)`.  The `mpc_least_square_engl` variant is excluded: see the
counterexample. -/
theorem C1_amended (so : Opt.State F N M Z Hp Hu) (sl : Ls.State F N M Z Hp Hu)
    (qrDec : Matrix (Fin (Hp * Z + Hu * M)) (Fin (Hu * M)) F →
      Bool × Matrix (Fin (Hp * Z + Hu * M)) (Fin (Hp * Z + Hu * M)) F ×
        Matrix (Fin (Hp * Z + Hu * M)) (Fin (Hu * M)) F)
    (A : Matrix (Fin N) (Fin N) F) (B : Matrix (Fin N) (Fin M) F)
    (C : Matrix (Fin Z) (Fin N) F) (q r sq sr : F) (hq : sq * sq = q)
    (hr : sr * sr = r) (hhu : 0 < Hu)
    (hdet : ((CzForm.CTHETA A B C : Matrix (Fin Hp × Fin Z) (Fin Hu × Fin M) F)ᵀ *
      setDiag q * CzForm.CTHETA A B C + setDiag r).det ≠ 0)
    (hval : (qrDec (GammaLeft sq sr (CzForm.CTHETA A B C))).1 = true)
    (hqr : IsQRDec (GammaLeft sq sr (CzForm.CTHETA A B C))
      (qrDec (GammaLeft sq sr (CzForm.CTHETA A B C))).2.1
      (qrDec (GammaLeft sq sr (CzForm.CTHETA A B C))).2.2)
    (SP : Matrix (Fin Hp × Fin Z) (Fin 1) F) (x : Matrix (Fin N) (Fin 1) F)
    (u : Matrix (Fin M) (Fin 1) F) :
    (Naive.bUpdate (Naive.vReInit Naive.State.zero A B C q r) hhu SP x u).1 = true ∧
    (Opt.bUpdate (Opt.vReInit so hhu A B C q r sq sr) SP x u).1 = true ∧
    (LsNew.bUpdate (Ls.vReInit qrDec sl A B C sq sr) hhu SP x u).1 = true ∧
    (∀ (c : Fin Hu × Fin M) (o : Fin 1),
      (Naive.bUpdate (Naive.vReInit Naive.State.zero A B C q r) hhu SP x u).2.1 c o =
        (LsNew.bUpdate (Ls.vReInit qrDec sl A B C sq sr) hhu SP x u).2.1
          (finProdFinEquiv c) o) ∧
    firstBlockRow hhu
        (Naive.bUpdate (Naive.vReInit Naive.State.zero A B C q r) hhu SP x u).2.1 =
      (Opt.bUpdate (Opt.vReInit so hhu A B C q r sq sr) SP x u).2.1 ∧
    (Opt.bUpdate (Opt.vReInit so hhu A B C q r sq sr) SP x u).2.1 =
      firstRows (Nat.le_mul_of_pos_left M hhu)
        (LsNew.bUpdate (Ls.vReInit qrDec sl A B C sq sr) hhu SP x u).2.1 ∧
    (Naive.bUpdate (Naive.vReInit Naive.State.zero A B C q r) hhu SP x u).2.2 =
      (Opt.bUpdate (Opt.vReInit so hhu A B C q r sq sr) SP x u).2.2 ∧
    (Opt.bUpdate (Opt.vReInit so hhu A B C q r sq sr) SP x u).2.2 =
      (LsNew.bUpdate (Ls.vReInit qrDec sl A B C sq sr) hhu SP x u).2.2 := by
  have hCT : (Naive.vReInit (Naive.State.zero : Naive.State F N M Z Hp Hu)
      A B C q r).CTHETA = CzForm.CTHETA A B C := by
    rw [Naive.vReInit_zero_CTHETA]
    exact (CzForm.CTHETA_eq_naive A B C).symm
  have hCP : (Naive.vReInit (Naive.State.zero : Naive.State F N M Z Hp Hu)
      A B C q r).CPSI = CzForm.CPSI A C := by
    rw [Naive.vReInit_CPSI]
    exact (CzForm.CPSI_eq_naive A C).symm
  have hCO : (Naive.vReInit (Naive.State.zero : Naive.State F N M Z Hp Hu)
      A B C q r).COMEGA = CzForm.COMEGA A B C := by
    rw [Naive.vReInit_COMEGA]
    exact (CzForm.COMEGA_eq_naive A B C).symm
  have hQ : (Naive.vReInit (Naive.State.zero : Naive.State F N M Z Hp Hu)
      A B C q r).Q = setDiag q := rfl
  have hRw : (Naive.vReInit (Naive.State.zero : Naive.State F N M Z Hp Hu)
      A B C q r).R = setDiag r := rfl
  have hdet' : ((Naive.vReInit (Naive.State.zero : Naive.State F N M Z Hp Hu)
        A B C q r).CTHETAᵀ *
      (Naive.vReInit (Naive.State.zero : Naive.State F N M Z Hp Hu) A B C q r).Q *
      (Naive.vReInit (Naive.State.zero : Naive.State F N M Z Hp Hu) A B C q r).CTHETA +
      (Naive.vReInit (Naive.State.zero : Naive.State F N M Z Hp Hu) A B C q r).R).det ≠
      0 := by
    rw [hCT, hQ, hRw]
    exact hdet
  have hNup := Naive.bUpdate_valid (Naive.vReInit Naive.State.zero A B C q r)
    hhu SP x u hdet'
  rw [hCT, hQ, hRw, hCP, hCO] at hNup
  have hOup : Opt.bUpdate (Opt.vReInit so hhu A B C q r sq sr) SP x u =
      (true,
        (Opt.vReInit so hhu A B C q r sq sr).XI_DU *
          (SP - CzForm.CPSI A C * x - CzForm.COMEGA A B C * u),
        u + (Opt.vReInit so hhu A B C q r sq sr).XI_DU *
          (SP - CzForm.CPSI A C * x - CzForm.COMEGA A B C * u)) := rfl
  have hgain : (Opt.vReInit so hhu A B C q r sq sr).XI_DU *
      (SP - CzForm.CPSI A C * x - CzForm.COMEGA A B C * u) =
      firstBlockRow hhu
        ((((CzForm.CTHETA A B C : Matrix (Fin Hp × Fin Z) (Fin Hu × Fin M) F)ᵀ *
            setDiag q * CzForm.CTHETA A B C + setDiag r)⁻¹ *
          ((CzForm.CTHETA A B C : Matrix (Fin Hp × Fin Z) (Fin Hu × Fin M) F)ᵀ *
            setDiag q * (SP - CzForm.CPSI A C * x - CzForm.COMEGA A B C * u)) :
          Matrix (Fin Hu × Fin M) (Fin 1) F)) := by
    rw [Opt.vReInit_XI_DU_of_ne so hhu A B C q r sq sr hdet, firstBlockRow_mul]
    simp only [Matrix.mul_assoc]
  have hslval : (Ls.vReInit qrDec sl A B C sq sr).Qtvalid = true := hval
  have hLup : LsNew.bUpdate (Ls.vReInit qrDec sl A B C sq sr) hhu SP x u =
      (true,
        (BackSubtitution (subUpperLeft (Nat.le_add_left (Hu * M) (Hp * Z)) le_rfl
            (Ls.vReInit qrDec sl A B C sq sr).RL)
          (firstRows (Nat.le_add_left (Hu * M) (Hp * Z))
            ((Ls.vReInit qrDec sl A B C sq sr).Qt * Ls.augRHS
              (((Ls.vReInit qrDec sl A B C sq sr).SQ *
                (SP - (Ls.vReInit qrDec sl A B C sq sr).CPSI * x -
                  (Ls.vReInit qrDec sl A B C sq sr).COMEGA * u)).submatrix
                finProdFinEquiv.symm id)))).2,
        u + firstRows (Nat.le_mul_of_pos_left M hhu)
          (BackSubtitution (subUpperLeft (Nat.le_add_left (Hu * M) (Hp * Z)) le_rfl
              (Ls.vReInit qrDec sl A B C sq sr).RL)
            (firstRows (Nat.le_add_left (Hu * M) (Hp * Z))
              ((Ls.vReInit qrDec sl A B C sq sr).Qt * Ls.augRHS
                (((Ls.vReInit qrDec sl A B C sq sr).SQ *
                  (SP - (Ls.vReInit qrDec sl A B C sq sr).CPSI * x -
                    (Ls.vReInit qrDec sl A B C sq sr).COMEGA * u)).submatrix
                  finProdFinEquiv.symm id)))).2) := by
    simp only [LsNew.bUpdate, hslval, if_true]
    rw [mul_augRHS]
  have hQt : (Ls.vReInit qrDec sl A B C sq sr).Qt =
      (qrDec (GammaLeft sq sr (CzForm.CTHETA A B C))).2.1 := rfl
  have hRL : (Ls.vReInit qrDec sl A B C sq sr).RL =
      (qrDec (GammaLeft sq sr (CzForm.CTHETA A B C))).2.2 := rfl
  have hSQ : (Ls.vReInit qrDec sl A B C sq sr).SQ =
      (setDiag sq : Matrix (Fin Hp × Fin Z) (Fin Hp × Fin Z) F) := rfl
  have hCP2 : (Ls.vReInit qrDec sl A B C sq sr).CPSI = CzForm.CPSI A C := rfl
  have hCO2 : (Ls.vReInit qrDec sl A B C sq sr).COMEGA = CzForm.COMEGA A B C := rfl
  rw [hQt, hRL, hSQ, hCP2, hCO2] at hLup
  have hcore := lsSolve_eq_inv sq sr q r hq hr (CzForm.CTHETA A B C)
    (qrDec (GammaLeft sq sr (CzForm.CTHETA A B C))).2.1
    (qrDec (GammaLeft sq sr (CzForm.CTHETA A B C))).2.2 hqr hdet
    (SP - CzForm.CPSI A C * x - CzForm.COMEGA A B C * u)
  rw [hcore] at hLup
  refine ⟨?_, ?_, ?_, ?_, ?_, ?_, ?_, ?_⟩
  · rw [hNup]
  · rw [hOup]
  · rw [hLup]
  · intro c o
    simp only [hNup, hLup, Matrix.submatrix_apply, Equiv.symm_apply_apply, id_eq]
  · simp only [hNup, hOup, hgain]
  · rw [hOup, hLup, hgain, ← firstRows_submatrix hhu]
  · simp only [hNup, hOup, hgain]
  · rw [hOup, hLup, hgain, ← firstRows_submatrix hhu]

/-- Witness for the amended C1 at the shared concrete configuration
`A = B = C = 1`, `Hp = 2`, `Hu = 1`, `q = 1`, `r = 4`, `sq = 1`, `sr = 2` with
the stored factorization `qrDecC6`. -/
theorem C1_amended_witness :
    ((1 : ℚ) * 1 = 1 ∧ (2 : ℚ) * 2 = 4 ∧ 0 < 1 ∧
      ((CzForm.CTHETA !![1] !![1] !![1] :
          Matrix (Fin 2 × Fin 1) (Fin 1 × Fin 1) ℚ)ᵀ *
        (setDiag 1 : Matrix (Fin 2 × Fin 1) (Fin 2 × Fin 1) ℚ) *
        (CzForm.CTHETA !![1] !![1] !![1] :
          Matrix (Fin 2 × Fin 1) (Fin 1 × Fin 1) ℚ) +
        (setDiag 4 : Matrix (Fin 1 × Fin 1) (Fin 1 × Fin 1) ℚ)).det ≠ 0 ∧
      (Inst.qrDecC6 (GammaLeft 1 2 (CzForm.CTHETA !![1] !![1] !![1]))).1 = true ∧
      IsQRDec (GammaLeft 1 2 (CzForm.CTHETA !![1] !![1] !![1]))
        (Inst.qrDecC6 (GammaLeft 1 2 (CzForm.CTHETA !![1] !![1] !![1]))).2.1
        (Inst.qrDecC6 (GammaLeft 1 2 (CzForm.CTHETA !![1] !![1] !![1]))).2.2) ∧
    (Naive.bUpdate (Naive.vReInit Naive.State.zero !![1] !![1] !![1] 1 4) Nat.one_pos
      Inst.SPC6 (0 : Matrix (Fin 1) (Fin 1) ℚ) (0 : Matrix (Fin 1) (Fin 1) ℚ)).1 =
      true :=
  ⟨⟨by norm_num, by norm_num, Nat.one_pos, Inst.HC1_det, rfl, Inst.qrC6_isQRDec⟩,
    (C1_amended Opt.State.zero Ls.State.zero Inst.qrDecC6 !![1] !![1] !![1] 1 4 1 2
      (by norm_num) (by norm_num) Nat.one_pos Inst.HC1_det rfl Inst.qrC6_isQRDec
      Inst.SPC6 (0 : Matrix (Fin 1) (Fin 1) ℚ) (0 : Matrix (Fin 1) (Fin 1) ℚ)).1⟩

end MPCLib
